import Mathlib

/-!
Verification of the Hedy level-1 editor grammar.

This file gives a shallow embedding of the Lezer grammar found in the
sources (the `@tokens` block, the external keyword specialize/extend
hooks, and the command-shape catalogue headed by `@top Program`), and
proves the specification's testable properties over the embedding.

Token spans are represented by the token contents: a lexing result is a
list of tokens each carrying the exact slice of characters it covers, so
"spans are contiguous, non-overlapping, and exactly cover the input"
becomes "the concatenation of the token contents is the input and every
token content is non-empty".
-/

namespace HedyGrammar

/-- `@asciiLetter` of the tokens block: `A`-`Z` and `a`-`z`. -/
def asciiLetterChar (c : Char) : Bool :=
  (0x41 ≤ c.toNat && c.toNat ≤ 0x5A) || (0x61 ≤ c.toNat && c.toNat ≤ 0x7A)

/-- `@digit` of the tokens block: `0`-`9`. -/
def digitChar (c : Char) : Bool := 0x30 ≤ c.toNat && c.toNat ≤ 0x39

/-- The fixed ASCII symbol set of the `symbol` rule:
`! % & ( ) * + - . / : ; < > = ? @ [ ] \ ^ LBRACE RBRACE BACKTICK ~ $ _`. -/
def symbolChar (c : Char) : Bool :=
  c.toNat = 0x21 || c.toNat = 0x25 || c.toNat = 0x26 || c.toNat = 0x28 ||
  c.toNat = 0x29 || c.toNat = 0x2A || c.toNat = 0x2B || c.toNat = 0x2D ||
  c.toNat = 0x2E || c.toNat = 0x2F || c.toNat = 0x3A || c.toNat = 0x3B ||
  c.toNat = 0x3C || c.toNat = 0x3E || c.toNat = 0x3D || c.toNat = 0x3F ||
  c.toNat = 0x40 || c.toNat = 0x5B || c.toNat = 0x5D || c.toNat = 0x5C ||
  c.toNat = 0x5E || c.toNat = 0x7B || c.toNat = 0x7D || c.toNat = 0x60 ||
  c.toNat = 0x7E || c.toNat = 0x24 || c.toNat = 0x5F

/-- The four list-separator comma code points of `Op`:
U+002C, U+060C, U+FF0C, U+3001. -/
def commaChar (c : Char) : Bool :=
  c.toNat = 0x2C || c.toNat = 0x60C || c.toNat = 0xFF0C || c.toNat = 0x3001

/-- The `identifierChar` rule: ASCII letters plus the code-point ranges
U+00A1-U+060B, U+060D-U+3000, U+3002-U+FF0B, U+FF0D-U+10FFFF (the whole
range U+00A1 and above minus the three non-ASCII comma variants). -/
def identifierChar (c : Char) : Bool :=
  asciiLetterChar c ||
  (0xA1 ≤ c.toNat && c.toNat ≤ 0x60B) ||
  (0x60D ≤ c.toNat && c.toNat ≤ 0x3000) ||
  (0x3002 ≤ c.toNat && c.toNat ≤ 0xFF0B) ||
  (0xFF0D ≤ c.toNat && c.toNat ≤ 0x10FFFF)

/-- The `Text` rule's character class: `(identifierChar | symbol | @digit)`. -/
def textChar (c : Char) : Bool := identifierChar c || symbolChar c || digitChar c

/-- The double-quote character U+0022. -/
def dquote : Char := Char.ofNat 0x22

/-- The single-quote character U+0027. -/
def squote : Char := Char.ofNat 0x27

/-- Characters allowed inside a `q`-delimited `String` token body:
the rule is `q ( ![\\ newline q] )* q`, so anything except a backslash,
a newline, and the delimiter itself. -/
def strBody (q c : Char) : Bool := !(c = '\\' || c = '\n' || c = q)

/-- The lexical classes produced by the `@tokens` block (plus the comma
separators, which the grammar consumes as the literal `Op` tokens).
`symbol` is not a standalone class: it only occurs inside `Text`. -/
inductive TokKind
  | text
  | string
  | comment
  | space
  | newline
  | comma
deriving DecidableEq

/-- A token: its class and the exact slice of input characters it covers. -/
structure Tok where
  kind : TokKind
  content : List Char
deriving DecidableEq

/-- Scan one token starting at character `c` with `rest` following.
Mirrors the `@tokens` block: newline, space, `Comment` from `#` to end of
line, the comma separators, `String` (either quote style, no
backslash/newline/delimiter in the body, closing delimiter required),
and maximal-munch `Text`. A character at which no token can start makes
the step fail (Lezer would error-recover there). -/
def lexStep (c : Char) (rest : List Char) : Option (Tok × List Char) :=
  if c = '\n' then some (⟨.newline, [c]⟩, rest)
  else if c = ' ' then some (⟨.space, [c]⟩, rest)
  else if c = '#' then
    some (⟨.comment, c :: rest.takeWhile (· ≠ '\n')⟩, rest.dropWhile (· ≠ '\n'))
  else if commaChar c then some (⟨.comma, [c]⟩, rest)
  else if c = dquote || c = squote then
    match rest.dropWhile (strBody c) with
    | d :: rest2 =>
      if d = c then
        some (⟨.string, c :: (rest.takeWhile (strBody c) ++ [c])⟩, rest2)
      else none
    | [] => none
  else if textChar c then
    some (⟨.text, (c :: rest).takeWhile textChar⟩, (c :: rest).dropWhile textChar)
  else none

/-- The token loop, fuelled (one unit of fuel per emitted token; since
every token covers at least one character, `cs.length` fuel always
suffices). -/
def lexF : Nat → List Char → Option (List Tok)
  | _, [] => some []
  | 0, _ :: _ => none
  | f + 1, c :: rest =>
    match lexStep c rest with
    | some (tok, rest') => (lexF f rest').map (tok :: ·)
    | none => none

/-- Lexing an input: run `lexF` with enough fuel. -/
def lex (cs : List Char) : Option (List Tok) := lexF cs.length cs

example : lex "a is 1".toList =
    some [⟨.text, ['a']⟩, ⟨.space, [' ']⟩, ⟨.text, ['i', 's']⟩,
      ⟨.space, [' ']⟩, ⟨.text, ['1']⟩] := by decide

example : lex "\"hi\"".toList = some [⟨.string, "\"hi\"".toList⟩] := by decide

example : lex "\t".toList = none := by decide

example : lex "a+b.c".toList = some [⟨.text, "a+b.c".toList⟩] := by decide

example : lex "a,b".toList =
    some [⟨.text, ['a']⟩, ⟨.comma, [',']⟩, ⟨.text, ['b']⟩] := by decide

/-! ## Keyword roles and resolution -/

/-- The grammar's role keywords: three specialized roles (`ask`, `at`,
`random`, declared with `@external specialize`) and twelve extended roles
(declared with `@external extend`). -/
inductive Role
  | ask | at_ | random
  | print | forward | turn | color | sleep | play
  | is | add | from_ | remove | to_list | clear
deriving DecidableEq

/-- A locale's keyword table: one surface spelling per canonical role. -/
structure KwTable where
  ask : String
  at_ : String
  random : String
  print : String
  forward : String
  turn : String
  color : String
  sleep : String
  play : String
  is : String
  add : String
  from_ : String
  remove : String
  to_list : String
  clear : String
deriving DecidableEq

/-- The spec's keyword-table invariant: within one locale, no two roles
share an identical surface spelling. -/
def collisionFree (t : KwTable) : Prop :=
  ([t.ask, t.at_, t.random, t.print, t.forward, t.turn, t.color, t.sleep,
    t.play, t.is, t.add, t.from_, t.remove, t.to_list, t.clear] : List String).Nodup

instance (t : KwTable) : Decidable (collisionFree t) := by
  unfold collisionFree; infer_instance

/-- A resolved token, as seen by the grammar after keyword resolution:
`plain` is a `Text` token that matches no keyword spelling; `ext r w` is a
`Text` token whose spelling matches the extended role `r` (per Lezer's
`@external extend`, it can be consumed either as the role keyword or as
plain `Text`); `spec r w` is a `Text` token whose spelling matches the
specialized role `r` (per `@external specialize`, it is the keyword only
and no longer counts as `Text`); `str` is a `String` token and `comma` a
list-separator `Op` token. -/
inductive RTok
  | plain (w : String)
  | ext (r : Role) (w : String)
  | spec (r : Role) (w : String)
  | str (w : String)
  | comma (c : Char)
deriving DecidableEq

/-- Modelled from the spec: the external functions `specializeKeyword` and
`extendKeyword` from `./tokens` are not among the sources; per the spec
(Keyword Resolver, §4.2) resolution is a pure function of the token
spelling and the active locale's keyword table, reclassifying a `Text`
token as a role keyword when its spelling matches the table's entry for
that role (specialized roles `ask`/`at`/`random` first, then the extended
roles in the grammar's declaration order), and leaving it generic `Text`
otherwise. -/
def resolveText (t : KwTable) (w : String) : RTok :=
  if w = t.ask then .spec .ask w
  else if w = t.at_ then .spec .at_ w
  else if w = t.random then .spec .random w
  else if w = t.print then .ext .print w
  else if w = t.forward then .ext .forward w
  else if w = t.turn then .ext .turn w
  else if w = t.color then .ext .color w
  else if w = t.sleep then .ext .sleep w
  else if w = t.play then .ext .play w
  else if w = t.is then .ext .is w
  else if w = t.add then .ext .add w
  else if w = t.from_ then .ext .from_ w
  else if w = t.remove then .ext .remove w
  else if w = t.to_list then .ext .to_list w
  else if w = t.clear then .ext .clear w
  else .plain w

/-- The token payload usable as a `Text` argument: `plain` always, and
`ext` tokens too (extended keywords remain valid `Text`). -/
def textTok : RTok → Option String
  | .plain w => some w
  | .ext _ w => some w
  | _ => none

/-- Whether a resolved token can be consumed as the role keyword `r`. -/
def isKw (r : Role) : RTok → Bool
  | .ext r' _ => r' = r
  | .spec r' _ => r' = r
  | _ => false

/-- Whether a resolved token is a list-separator token. -/
def RTok.isComma : RTok → Bool
  | .comma _ => true
  | _ => false

/-- All ways to consume a non-empty run `r+` of keyword tokens from the
front, returning the possible remainders. Per `@external extend`, an
extended-keyword token is simultaneously a `Text` token, so a run of `k`
consecutive `r`-keyword tokens can serve the `r+` position with any split
`1..k`, the remainder feeding the following slots; the GLR parser
explores all of them. The remainders are ordered longest-keyword-run
first — the claims under verification are insensitive to which named
parse an ambiguous statement gets, and this is the embedding's
deterministic tie-break. An empty result means no run is present. -/
def kwRuns (r : Role) : List RTok → List (List RTok)
  | [] => []
  | t :: ts => if isKw r t then kwRuns r ts ++ [ts] else []

/-- Collect the spellings of a token list all of whose members are
`Text`-class tokens; `none` if any member is not usable as `Text`. -/
def textsOf : List RTok → Option (List String)
  | [] => some []
  | t :: ts =>
    match textTok t with
    | some w => (textsOf ts).map (w :: ·)
    | none => none

/-! ## Command nodes -/

/-- The index slot of a `ListAccess`: the `random` marker or an explicit
`Text` token. -/
inductive Index
  | random
  | idx (w : String)
deriving DecidableEq

/-- A `ListAccess` node: `Text at+ (random+ | Text)`. -/
structure ListAcc where
  listVar : String
  index : Index
deriving DecidableEq

/-- A `(Text | ListAccess)` argument slot (Sleep, Turtle). -/
inductive TA
  | txt (w : String)
  | la (l : ListAcc)
deriving DecidableEq

/-- One argument of `( String | Text | ListAccess )+` (Print, Ask). -/
inductive Arg
  | txt (w : String)
  | str (w : String)
  | la (l : ListAcc)
deriving DecidableEq

/-- The value of an `Assign`: `Text+ | ListAccess`. -/
inductive AssignVal
  | texts (ws : List String)
  | la (l : ListAcc)
deriving DecidableEq

/-- The argument of a `Play`: `ListAccess | Text+`. -/
inductive PlayVal
  | texts (ws : List String)
  | la (l : ListAcc)
deriving DecidableEq

/-- The command catalogue of the grammar's `Command` rule (the three
turtle sub-shapes flattened), plus the fallback `ErrorInvalid`. -/
inductive Command
  | assign (v : String) (val : AssignVal)
  | assignList (v : String) (elems : List (List String))
  | ask (v : String) (args : List Arg)
  | clear
  | print (args : List Arg)
  | play (arg : PlayVal)
  | forward (arg : TA)
  | turn (arg : TA)
  | color (arg : TA)
  | sleep (arg : Option TA)
  | add (vals : List String) (target : String)
  | remove (vals : List String) (target : String)
  | errorInvalid (ws : List String)
deriving DecidableEq

/-- The tag of a command (its shape name). -/
inductive Tag
  | assign | assignList | ask | clear | print | play
  | forward | turn | color | sleep | add | remove | errorInvalid
deriving DecidableEq

def Command.tag : Command → Tag
  | .assign .. => .assign
  | .assignList .. => .assignList
  | .ask .. => .ask
  | .clear => .clear
  | .print .. => .print
  | .play .. => .play
  | .forward .. => .forward
  | .turn .. => .turn
  | .color .. => .color
  | .sleep .. => .sleep
  | .add .. => .add
  | .remove .. => .remove
  | .errorInvalid .. => .errorInvalid

/-- The number of argument tokens held by a command's argument slots. -/
def Command.argCount : Command → Nat
  | .assign _ (.texts ws) => ws.length
  | .assign _ (.la _) => 1
  | .assignList _ gs => gs.length
  | .ask _ args => args.length
  | .clear => 0
  | .print args => args.length
  | .play (.texts ws) => ws.length
  | .play (.la _) => 1
  | .forward _ => 1
  | .turn _ => 1
  | .color _ => 1
  | .sleep none => 0
  | .sleep (some _) => 1
  | .add ws _ => ws.length + 1
  | .remove ws _ => ws.length + 1
  | .errorInvalid ws => ws.length

/-! ## Shape matchers

Each matcher recognizes one command shape against the full token run of
one statement (a shape matches only if it consumes every token), returning
the shape's payload. -/

/-- The `(random+ | Text)` index slot of a `ListAccess`, consuming the
whole remainder: either the whole remainder is a non-empty `random+` run,
or it is one `Text` token. -/
def laIndexP (v : String) (rest : List RTok) : Option ListAcc :=
  if !rest.isEmpty && rest.all (isKw .random) then some ⟨v, .random⟩
  else
    match rest with
    | [u] => (textTok u).map (fun w => ListAcc.mk v (.idx w))
    | _ => none

/-- `ListAccess { Text at+ (random+ | Text) }`, consuming the whole list. -/
def listAccessP (ts : List RTok) : Option ListAcc :=
  match ts with
  | t :: ts1 =>
    match textTok t with
    | some v => (kwRuns .at_ ts1).findSome? (laIndexP v)
    | none => none
  | [] => none

/-- Parse one argument of `( String | Text | ListAccess )+` from the front
of the token run, returning it with the remaining tokens. A `Text` token
followed by `at+` can only continue as a `ListAccess`, and a maximal
`random+` run is taken for the index (the specialized `at`/`random`
keywords are never `Text`, so no argument can consume them otherwise). -/
def argP1 : List RTok → Option (Arg × List RTok)
  | [] => none
  | .str w :: ts => some (.str w, ts)
  | t :: ts =>
    match textTok t with
    | some w =>
      match kwRuns .at_ ts with
      | [] => some (.txt w, ts)
      | rests =>
        rests.findSome? fun rest =>
          match kwRuns .random rest with
          | rest2 :: _ => some (.la ⟨w, .random⟩, rest2)
          | [] =>
            match rest with
            | u :: us => (textTok u).map (fun w2 => (Arg.la ⟨w, .idx w2⟩, us))
            | [] => none
    | none => none

/-- A non-empty argument sequence `( String | Text | ListAccess )+`
consuming the whole run, fuelled (each argument consumes at least one
token, so `ts.length` fuel always suffices). -/
def argsPF : Nat → List RTok → Option (List Arg)
  | _, [] => none
  | 0, _ :: _ => none
  | f + 1, ts =>
    match argP1 ts with
    | some (a, rest) =>
      if rest.isEmpty then some [a] else (argsPF f rest).map (a :: ·)
    | none => none

def argsP (ts : List RTok) : Option (List Arg) := argsPF ts.length ts

/-- The `(Text+ | ListAccess)` value slot of an `Assign`, consuming the
whole remainder. -/
def assignValP (rest : List RTok) : Option AssignVal :=
  match textsOf rest with
  | some ws => if ws.isEmpty then none else some (.texts ws)
  | none => (listAccessP rest).map .la

/-- `Assign { Text is+ (Text+ | ListAccess) }`. -/
def assignP (ts : List RTok) : Option (String × AssignVal) :=
  match ts with
  | t :: ts1 =>
    match textTok t with
    | some v =>
      (kwRuns .is ts1).findSome? fun rest =>
        (assignValP rest).map (fun val => (v, val))
    | none => none
  | [] => none

/-- Split a token run into the groups between list-separator tokens. -/
def splitCommaGroups : List RTok → List (List RTok)
  | [] => [[]]
  | .comma _ :: ts => [] :: splitCommaGroups ts
  | t :: ts =>
    match splitCommaGroups ts with
    | g :: gs => (t :: g) :: gs
    | [] => [[t]]

/-- One `Text+` group of an `AssignList` literal. -/
def groupTexts (g : List RTok) : Option (List String) :=
  match textsOf g with
  | some ws => if ws.isEmpty then none else some ws
  | none => none

/-- All groups of an `AssignList` literal, each a non-empty `Text+` run. -/
def groupsTexts : List (List RTok) → Option (List (List String))
  | [] => some []
  | g :: gs =>
    match groupTexts g with
    | some ws => (groupsTexts gs).map (ws :: ·)
    | none => none

/-- The groups part of an `AssignList`: at least two separator-delimited
groups, each a non-empty run of `Text` tokens, covering the remainder. -/
def assignGroupsP (rest : List RTok) : Option (List (List String)) :=
  match groupsTexts (splitCommaGroups rest) with
  | some gs => if 2 ≤ gs.length then some gs else none
  | none => none

/-- `AssignList { Text is+ Text+ (Op Text+)+ }`. -/
def assignListP (ts : List RTok) : Option (String × List (List String)) :=
  match ts with
  | t :: ts1 =>
    match textTok t with
    | some v =>
      (kwRuns .is ts1).findSome? fun rest =>
        (assignGroupsP rest).map (fun gs => (v, gs))
    | none => none
  | [] => none

/-- The `ask+ args+` tail of an `Ask`, consuming the whole remainder. -/
def askTailP (rest : List RTok) : Option (List Arg) :=
  (kwRuns .ask rest).findSome? argsP

/-- `Ask { Text is+ ask+ ( String | Text | ListAccess )+ }`. -/
def askP (ts : List RTok) : Option (String × List Arg) :=
  match ts with
  | t :: ts1 =>
    match textTok t with
    | some v =>
      (kwRuns .is ts1).findSome? fun rest =>
        (askTailP rest).map (fun args => (v, args))
    | none => none
  | [] => none

/-- `Clear { clear+ }`: the keyword run must cover the statement. -/
def clearP (ts : List RTok) : Option Unit :=
  (kwRuns .clear ts).findSome? fun rest => if rest.isEmpty then some () else none

/-- `Print { print+ ( String | Text | ListAccess )+ }`. -/
def printP (ts : List RTok) : Option (List Arg) :=
  (kwRuns .print ts).findSome? argsP

/-- The `(ListAccess | Text+)` argument of a `Play`. -/
def playTailP (rest : List RTok) : Option PlayVal :=
  match listAccessP rest with
  | some l => some (.la l)
  | none =>
    match textsOf rest with
    | some ws => if ws.isEmpty then none else some (.texts ws)
    | none => none

/-- `Play { play+ (ListAccess | Text+) }`. -/
def playP (ts : List RTok) : Option PlayVal :=
  (kwRuns .play ts).findSome? playTailP

/-- A single `(Text | ListAccess)` slot consuming the whole rest. -/
def oneArgP (rest : List RTok) : Option TA :=
  match rest with
  | [u] =>
    match textTok u with
    | some w => some (.txt w)
    | none => none
  | _ => (listAccessP rest).map .la

/-- `Forward { forward+ (Text | ListAccess) }`. -/
def forwardP (ts : List RTok) : Option TA :=
  (kwRuns .forward ts).findSome? oneArgP

/-- `Turn { turn+ (Text | ListAccess) }`. -/
def turnP (ts : List RTok) : Option TA :=
  (kwRuns .turn ts).findSome? oneArgP

/-- `Color { color+ (Text | ListAccess)  }`. -/
def colorP (ts : List RTok) : Option TA :=
  (kwRuns .color ts).findSome? oneArgP

/-- The optional `(Text | ListAccess)?` argument of a `Sleep`. -/
def sleepTailP (rest : List RTok) : Option (Option TA) :=
  if rest.isEmpty then some none else (oneArgP rest).map some

/-- `Sleep { sleep+ (Text | ListAccess)? }`. -/
def sleepP (ts : List RTok) : Option (Option TA) :=
  (kwRuns .sleep ts).findSome? sleepTailP

/-- All the ways to split a non-empty `Text+` prefix off a token run. -/
def splitsTextPlus : List RTok → List (List String × List RTok)
  | [] => []
  | t :: ts =>
    match textTok t with
    | none => []
    | some w => ([w], ts) :: (splitsTextPlus ts).map (fun p => (w :: p.1, p.2))

/-- The `to_list+ Text` tail of an `Add`, after a `Text+` split. -/
def addTailP (p : List String × List RTok) : Option (List String × String) :=
  (kwRuns .to_list p.2).findSome? fun rest3 =>
    match rest3 with
    | [u] => (textTok u).map (fun l => (p.1, l))
    | _ => none

/-- `Add { add+ Text+ to_list+ Text }`. -/
def addP (ts : List RTok) : Option (List String × String) :=
  (kwRuns .add ts).findSome? fun rest =>
    (splitsTextPlus rest).findSome? addTailP

/-- The `from+ Text` tail of a `Remove`, after a `Text+` split. -/
def removeTailP (p : List String × List RTok) : Option (List String × String) :=
  (kwRuns .from_ p.2).findSome? fun rest3 =>
    match rest3 with
    | [u] => (textTok u).map (fun l => (p.1, l))
    | _ => none

/-- `Remove { remove+ Text+ from+ Text }`. -/
def removeP (ts : List RTok) : Option (List String × String) :=
  (kwRuns .remove ts).findSome? fun rest =>
    (splitsTextPlus rest).findSome? removeTailP

/-- `ErrorInvalid { Text+ }`: any non-empty run of `Text`-class tokens. -/
def errorInvalidP (ts : List RTok) : Option (List String) :=
  match textsOf ts with
  | some ws => if ws.isEmpty then none else some ws
  | none => none

/-! ## The statement parser -/

/-- The named command alternatives of the `Command` rule, attempted in the
grammar's declaration order. -/
def namedAlternatives (ts : List RTok) : List (Option Command) :=
  [(assignP ts).map (fun p => .assign p.1 p.2),
   (assignListP ts).map (fun p => .assignList p.1 p.2),
   (askP ts).map (fun p => .ask p.1 p.2),
   (clearP ts).map (fun _ => .clear),
   (printP ts).map .print,
   (playP ts).map .play,
   (forwardP ts).map .forward,
   (turnP ts).map .turn,
   (colorP ts).map .color,
   (sleepP ts).map .sleep,
   (addP ts).map (fun p => .add p.1 p.2),
   (removeP ts).map (fun p => .remove p.1 p.2)]

/-- The first named command shape matching the statement's token run. -/
def namedParse (ts : List RTok) : Option Command :=
  (namedAlternatives ts).findSome? id

/-- Whether some named (non-fallback) command shape matches the run. The
matchers above explore every split of an extended-keyword run (via
`kwRuns`), so runs such as `print print` or `a is is`, which the GLR
grammar parses as named commands by letting the trailing keyword token
serve as `Text`, count as named matches. -/
def matchesNamed (ts : List RTok) : Bool :=
  (namedAlternatives ts).any Option.isSome

/-- Parse one statement: the named shapes all carry dynamic precedence `0`
while `ErrorInvalid` carries `-10`, so a named parse is preferred and the
fallback is used only when no named shape matches; a run that matches no
shape at all (not even `ErrorInvalid`) yields `none` (Lezer error
recovery). -/
def parseStatement (ts : List RTok) : Option Command :=
  match namedParse ts with
  | some c => some c
  | none => (errorInvalidP ts).map .errorInvalid

/-! ## The full pipeline for one line -/

/-- Resolve a lexed token for the grammar: spaces and comments are
skipped (`@skip`), newlines delimit statements (none occur inside one
line), `Text` goes through keyword resolution, and `String`/separator
tokens pass through. -/
def toStatementToks (t : KwTable) (toks : List Tok) : List RTok :=
  toks.filterMap fun tok =>
    match tok.kind with
    | .space => none
    | .comment => none
    | .newline => none
    | .text => some (resolveText t (String.mk tok.content))
    | .string => some (.str (String.mk tok.content))
    | .comma => some (.comma (tok.content.headD ' '))

/-- Lex, resolve and parse one statement line under a locale's table. -/
def parseLine (t : KwTable) (s : String) : Option Command :=
  (lex s.toList).bind fun toks => parseStatement (toStatementToks t toks)

/-- The English keyword table. -/
def enTable : KwTable where
  ask := "ask"
  at_ := "at"
  random := "random"
  print := "print"
  forward := "forward"
  turn := "turn"
  color := "color"
  sleep := "sleep"
  play := "play"
  is := "is"
  add := "add"
  from_ := "from"
  remove := "remove"
  to_list := "to_list"
  clear := "clear"

example : parseLine enTable "print \"hi\"" = some (.print [.str "\"hi\""]) := by
  decide

example : parseLine enTable "a is 1,2,3" =
    some (.assignList "a" [["1"], ["2"], ["3"]]) := by decide

example : parseLine enTable "flibbertigibbet" =
    some (.errorInvalid ["flibbertigibbet"]) := by decide

example : parseLine enTable "scores at random" = none := by decide

example : parseLine enTable "x is scores at random" =
    some (.assign "x" (.la ⟨"scores", .random⟩)) := by decide

example : parseLine enTable "x is scores at 2" =
    some (.assign "x" (.la ⟨"scores", .idx "2"⟩)) := by decide

example : parseLine enTable "clear clear" = some .clear := by decide

example : parseLine enTable "forward 10" = some (.forward (.txt "10")) := by
  decide

example : parseLine enTable "add x to_list l" = some (.add ["x"] "l") := by
  decide

example : parseLine enTable "remove x from l" = some (.remove ["x"] "l") := by
  decide

example : parseLine enTable "\"hi\"" = none := by decide

/- The `@external extend` ambiguity: the trailing keyword token of a run
may instead serve as a `Text` argument, and the named parse beats the
fallback. -/
example : parseLine enTable "print print" = some (.print [.txt "print"]) := by
  decide

example : parseLine enTable "a is is" = some (.assign "a" (.texts ["is"])) := by
  decide

example : parseLine enTable "play play" = some (.play (.texts ["play"])) := by
  decide

example : parseLine enTable "forward forward" =
    some (.forward (.txt "forward")) := by decide

example : parseLine enTable "sleep sleep at 2" =
    some (.sleep (some (.la ⟨"sleep", .idx "2"⟩))) := by decide

/-! ## Lexer soundness -/

/-- Every valid character's code point is below U+110000. -/
theorem char_toNat_lt (c : Char) : c.toNat < 0x110000 := by
  have h := c.valid
  rcases h with h | ⟨h1, h2⟩ <;> simp only [Char.toNat] <;> omega

/-- The class invariant each token kind maintains over its content. -/
def TokOk (t : Tok) : Prop :=
  match t.kind with
  | .text => t.content ≠ [] ∧ ∀ c ∈ t.content, textChar c = true
  | .comma => ∃ c, t.content = [c] ∧ commaChar c = true
  | .string => ∃ q body, (q = dquote ∨ q = squote) ∧
      t.content = q :: (body ++ [q]) ∧ ∀ c ∈ body, strBody q c = true
  | .space => t.content = [' ']
  | .newline => t.content = ['\n']
  | .comment => t.content ≠ []

/-- One lexing step emits a non-empty token satisfying its class
invariant, and consumes exactly that token's content. -/
theorem lexStep_sound {c : Char} {rest : List Char} {tok : Tok}
    {rest' : List Char} (h : lexStep c rest = some (tok, rest')) :
    tok.content ++ rest' = c :: rest ∧ tok.content ≠ [] ∧ TokOk tok := by
  unfold lexStep at h
  split at h
  · rename_i hc
    obtain ⟨h1, h2⟩ : (⟨.newline, [c]⟩ : Tok) = tok ∧ rest = rest' := by
      simpa using h
    subst h1; subst h2; subst hc
    exact ⟨rfl, by simp, by simp [TokOk]⟩
  split at h
  · rename_i hc
    obtain ⟨h1, h2⟩ : (⟨.space, [c]⟩ : Tok) = tok ∧ rest = rest' := by
      simpa using h
    subst h1; subst h2; subst hc
    exact ⟨rfl, by simp, by simp [TokOk]⟩
  split at h
  · rename_i hc
    obtain ⟨h1, h2⟩ : (⟨.comment, c :: rest.takeWhile (· ≠ '\n')⟩ : Tok) = tok ∧
        rest.dropWhile (· ≠ '\n') = rest' := by simpa using h
    subst h1; subst h2
    refine ⟨?_, by simp, by simp [TokOk]⟩
    simp [List.takeWhile_append_dropWhile]
  split at h
  · rename_i hc
    obtain ⟨h1, h2⟩ : (⟨.comma, [c]⟩ : Tok) = tok ∧ rest = rest' := by
      simpa using h
    subst h1; subst h2
    exact ⟨rfl, by simp, ⟨c, rfl, hc⟩⟩
  split at h
  · rename_i hq
    have hq' : c = dquote ∨ c = squote := by
      simpa [Bool.or_eq_true, decide_eq_true_iff] using hq
    split at h
    · rename_i d rest2 hdrop
      split at h
      · rename_i hd
        obtain ⟨h1, h2⟩ :
            (⟨.string, c :: (rest.takeWhile (strBody c) ++ [c])⟩ : Tok) = tok ∧
              rest2 = rest' := by simpa using h
        subst h1; subst h2
        refine ⟨?_, by simp, ?_⟩
        · subst hd
          have hcat : rest.takeWhile (strBody d) ++ (d :: rest2) = rest := by
            rw [← hdrop, List.takeWhile_append_dropWhile]
          simp only [List.cons_append, List.append_assoc, List.singleton_append,
            List.cons.injEq, true_and]
          exact hcat
        · exact ⟨c, rest.takeWhile (strBody c), hq', rfl,
            fun x hx => List.mem_takeWhile_imp hx⟩
      · exact absurd h (by simp)
    · exact absurd h (by simp)
  split at h
  · rename_i ht
    obtain ⟨h1, h2⟩ : (⟨.text, (c :: rest).takeWhile textChar⟩ : Tok) = tok ∧
        (c :: rest).dropWhile textChar = rest' := by simpa using h
    subst h1; subst h2
    refine ⟨List.takeWhile_append_dropWhile .., ?_, ?_, ?_⟩
    · simp [List.takeWhile_cons, ht]
    · simp [List.takeWhile_cons, ht]
    · exact fun x hx => List.mem_takeWhile_imp hx
  · exact absurd h (by simp)

/-- The lexer partitions its input: the emitted token contents are
non-empty, satisfy the class invariants, and concatenate back to the
input (spans contiguous, non-overlapping, exactly covering). -/
theorem lexF_sound :
    ∀ {fuel : Nat} {cs : List Char} {toks : List Tok},
      lexF fuel cs = some toks →
      (toks.map Tok.content).flatten = cs ∧ ∀ t ∈ toks, t.content ≠ [] ∧ TokOk t := by
  intro fuel
  induction fuel with
  | zero =>
    intro cs toks h
    cases cs with
    | nil => cases h; simp
    | cons c rest => exact absurd h (by simp [lexF])
  | succ f ih =>
    intro cs toks h
    cases cs with
    | nil => cases h; simp
    | cons c rest =>
      simp only [lexF] at h
      split at h
      · rename_i tok rest' hstep
        rcases Option.map_eq_some'.mp h with ⟨toks', h', rfl⟩
        obtain ⟨hcat, hne, hok⟩ := lexStep_sound hstep
        obtain ⟨ih1, ih2⟩ := ih h'
        constructor
        · simp only [List.map_cons, List.flatten_cons, ih1, hcat]
        · intro t ht
          rcases List.mem_cons.mp ht with rfl | ht'
          · exact ⟨hne, hok⟩
          · exact ih2 t ht'
      · exact absurd h (by simp)

theorem lex_sound {cs : List Char} {toks : List Tok} (h : lex cs = some toks) :
    (toks.map Tok.content).flatten = cs ∧ ∀ t ∈ toks, t.content ≠ [] ∧ TokOk t :=
  lexF_sound h

/-- After a `Text` token is emitted, the remaining input cannot begin with
another `Text`-class character (maximal munch). -/
theorem lexStep_text_break {c : Char} {rest : List Char} {tok : Tok}
    {rest' : List Char} (h : lexStep c rest = some (tok, rest'))
    (hk : tok.kind = .text) {d : Char} (hd : rest'.head? = some d) :
    textChar d = false := by
  unfold lexStep at h
  split at h
  · obtain ⟨h1, -⟩ : (⟨.newline, [c]⟩ : Tok) = tok ∧ rest = rest' := by
      simpa using h
    rw [← h1] at hk; simp at hk
  split at h
  · obtain ⟨h1, -⟩ : (⟨.space, [c]⟩ : Tok) = tok ∧ rest = rest' := by
      simpa using h
    rw [← h1] at hk; simp at hk
  split at h
  · obtain ⟨h1, -⟩ : (⟨.comment, c :: rest.takeWhile (· ≠ '\n')⟩ : Tok) = tok ∧
        rest.dropWhile (· ≠ '\n') = rest' := by simpa using h
    rw [← h1] at hk; simp at hk
  split at h
  · obtain ⟨h1, -⟩ : (⟨.comma, [c]⟩ : Tok) = tok ∧ rest = rest' := by
      simpa using h
    rw [← h1] at hk; simp at hk
  split at h
  · split at h
    · rename_i d2 rest2 hdrop
      split at h
      · obtain ⟨h1, -⟩ :
            (⟨.string, c :: (rest.takeWhile (strBody c) ++ [c])⟩ : Tok) = tok ∧
              rest2 = rest' := by simpa using h
        rw [← h1] at hk; simp at hk
      · exact absurd h (by simp)
    · exact absurd h (by simp)
  split at h
  · obtain ⟨h1, h2⟩ : (⟨.text, (c :: rest).takeWhile textChar⟩ : Tok) = tok ∧
        (c :: rest).dropWhile textChar = rest' := by simpa using h
    subst h2
    have := List.head?_dropWhile_not textChar (c :: rest)
    rw [hd] at this
    exact this
  · exact absurd h (by simp)

/-- No two consecutive tokens are both `Text` tokens. -/
def noTextPair (a b : Tok) : Prop := ¬(a.kind = .text ∧ b.kind = .text)

theorem lexF_chain :
    ∀ {fuel : Nat} {cs : List Char} {toks : List Tok},
      lexF fuel cs = some toks → toks.Chain' noTextPair := by
  intro fuel
  induction fuel with
  | zero =>
    intro cs toks h
    cases cs with
    | nil => cases h; simp
    | cons c rest => exact absurd h (by simp [lexF])
  | succ f ih =>
    intro cs toks h
    cases cs with
    | nil => cases h; simp
    | cons c rest =>
      simp only [lexF] at h
      split at h
      · rename_i tok rest' hstep
        rcases Option.map_eq_some'.mp h with ⟨toks', h', rfl⟩
        refine List.chain'_cons'.mpr ⟨?_, ih h'⟩
        intro t2 ht2
        unfold noTextPair
        rintro ⟨hk1, hk2⟩
        have hsnd := lexF_sound h'
        cases toks' with
        | nil => simp at ht2
        | cons u us =>
          have ht2' : u = t2 := by simpa using ht2
          subst ht2'
          obtain ⟨hne, hok⟩ := hsnd.2 u (by simp)
          have hflat := hsnd.1
          cases hcontent : u.content with
          | nil => exact hne hcontent
          | cons d ds =>
            have hhead : rest'.head? = some d := by
              rw [← hflat]
              simp [hcontent]
            have hbreak := lexStep_text_break hstep hk1 hhead
            rw [TokOk, hk2] at hok
            have := hok.2 d (by rw [hcontent]; simp)
            rw [hbreak] at this
            exact Bool.false_ne_true this
      · exact absurd h (by simp)

/-- Characters at which some token can start, independent of context:
text-class characters, space, newline, `#`, and the comma separators.
(Quote characters are excluded: a quote only lexes when a matching
closing quote follows.) -/
def coveredChar (c : Char) : Bool :=
  textChar c || c = ' ' || c = '\n' || c = '#' || commaChar c

/-- Lexing succeeds on any input made of covered characters. -/
theorem lexF_total :
    ∀ (fuel : Nat) (cs : List Char), cs.length ≤ fuel →
      (∀ c ∈ cs, coveredChar c = true) → (lexF fuel cs).isSome := by
  intro fuel
  induction fuel with
  | zero =>
    intro cs hlen _
    cases cs with
    | nil => simp [lexF]
    | cons c rest => simp at hlen
  | succ f ih =>
    intro cs hlen hcov
    cases cs with
    | nil => simp [lexF]
    | cons c rest =>
      have hc := hcov c (by simp)
      by_cases h1 : c = '\n'
      · subst h1
        have hstep : lexStep '\n' rest = some (⟨.newline, ['\n']⟩, rest) := by
          simp [lexStep]
        simp only [lexF, hstep]
        have := ih rest (by simpa using hlen) (fun x hx => hcov x (by simp [hx]))
        rcases Option.isSome_iff_exists.mp this with ⟨ts, hts⟩
        simp [hts]
      by_cases h2 : c = ' '
      · subst h2
        have hstep : lexStep ' ' rest = some (⟨.space, [' ']⟩, rest) := by
          simp [lexStep]
        simp only [lexF, hstep]
        have := ih rest (by simpa using hlen) (fun x hx => hcov x (by simp [hx]))
        rcases Option.isSome_iff_exists.mp this with ⟨ts, hts⟩
        simp [hts]
      by_cases h3 : c = '#'
      · subst h3
        have hstep : lexStep '#' rest =
            some (⟨.comment, '#' :: rest.takeWhile (fun x => !decide (x = '\n'))⟩,
              rest.dropWhile (fun x => !decide (x = '\n'))) := by
          simp [lexStep, commaChar]
        simp only [lexF, hstep]
        have hsub := List.dropWhile_sublist (l := rest) (fun x => !decide (x = '\n'))
        have := ih (rest.dropWhile (fun x => !decide (x = '\n')))
          (by have := hsub.length_le; simp at hlen; omega)
          (fun x hx => hcov x (by simp [hsub.subset hx]))
        rcases Option.isSome_iff_exists.mp this with ⟨ts, hts⟩
        simp [hts]
      by_cases h4 : commaChar c = true
      · have hstep : lexStep c rest = some (⟨.comma, [c]⟩, rest) := by
          unfold lexStep
          rw [if_neg h1, if_neg h2, if_neg h3, if_pos h4]
        simp only [lexF, hstep]
        have := ih rest (by simpa using hlen) (fun x hx => hcov x (by simp [hx]))
        rcases Option.isSome_iff_exists.mp this with ⟨ts, hts⟩
        simp [hts]
      -- remaining: the character must be text-class
      have ht : textChar c = true := by
        simp only [coveredChar, Bool.or_eq_true, decide_eq_true_iff] at hc
        rcases hc with ((((ht | h) | h) | h) | h) <;> first
          | exact ht
          | exact absurd h h2
          | exact absurd h h1
          | exact absurd h h3
          | exact absurd h h4
      have hq : ¬((c = dquote || c = squote) = true) := by
        simp only [Bool.or_eq_true, decide_eq_true_iff]
        rintro (rfl | rfl)
        · exact absurd ht (by decide)
        · exact absurd ht (by decide)
      have hstep : lexStep c rest =
          some (⟨.text, (c :: rest).takeWhile textChar⟩,
            (c :: rest).dropWhile textChar) := by
        unfold lexStep
        rw [if_neg h1, if_neg h2, if_neg h3, if_neg h4, if_neg hq, if_pos ht]
      simp only [lexF, hstep]
      have hdrop : (c :: rest).dropWhile textChar = rest.dropWhile textChar := by
        simp [List.dropWhile_cons, ht]
      have hsub := List.dropWhile_sublist (l := rest) textChar
      have := ih ((c :: rest).dropWhile textChar)
        (by rw [hdrop]; have := hsub.length_le; simp at hlen; omega)
        (fun x hx => hcov x (by
          rw [hdrop] at hx
          simp [hsub.subset hx]))
      rcases Option.isSome_iff_exists.mp this with ⟨ts, hts⟩
      simp [hts]

/-! ## Character-class facts -/

/-- A list-separator comma is never a `Text`-class character. -/
theorem comma_not_text {c : Char} (h : commaChar c = true) : textChar c = false := by
  simp only [commaChar, Bool.or_eq_true, decide_eq_true_iff] at h
  apply Bool.eq_false_iff.mpr
  intro habs
  simp only [textChar, identifierChar, asciiLetterChar, symbolChar, digitChar,
    Bool.or_eq_true, Bool.and_eq_true, decide_eq_true_iff] at habs
  omega

/-- Every code point from U+00A1 up that is not one of the four comma
separators is an `identifierChar`. -/
theorem identifierChar_of {c : Char} (h1 : 0xA1 ≤ c.toNat)
    (h2 : commaChar c = false) : identifierChar c = true := by
  have hlt := char_toNat_lt c
  simp only [commaChar, Bool.or_eq_false_iff, decide_eq_false_iff_not] at h2
  simp only [identifierChar, asciiLetterChar, Bool.or_eq_true, Bool.and_eq_true,
    decide_eq_true_iff]
  omega

/-! ## String-token lemmas -/

theorem takeWhile_all_append {α : Type} {p : α → Bool} :
    ∀ (l1 l2 : List α), (∀ a ∈ l1, p a = true) →
      List.takeWhile p (l1 ++ l2) = l1 ++ List.takeWhile p l2 := by
  intro l1
  induction l1 with
  | nil => simp
  | cons a t ih =>
    intro l2 h
    rw [List.cons_append, List.takeWhile_cons, if_pos (h a (by simp)),
      ih l2 (fun x hx => h x (by simp [hx])), List.cons_append]

theorem dropWhile_all_append {α : Type} {p : α → Bool} :
    ∀ (l1 l2 : List α), (∀ a ∈ l1, p a = true) →
      List.dropWhile p (l1 ++ l2) = List.dropWhile p l2 := by
  intro l1
  induction l1 with
  | nil => simp
  | cons a t ih =>
    intro l2 h
    rw [List.cons_append, List.dropWhile_cons, if_pos (h a (by simp)),
      ih l2 (fun x hx => h x (by simp [hx]))]

/-- The delimiter never satisfies its own body class. -/
theorem strBody_self (q : Char) : strBody q q = false := by
  simp [strBody]

/-- A delimited run whose body avoids backslash, newline, and the
delimiter lexes in one step as a `String` token. -/
theorem lexStep_string (q : Char) (body rest2 : List Char)
    (hq : q = dquote ∨ q = squote)
    (hb : ∀ c ∈ body, strBody q c = true) :
    lexStep q (body ++ q :: rest2) = some (⟨.string, q :: (body ++ [q])⟩, rest2) := by
  have h1 : ¬q = '\n' := by rcases hq with rfl | rfl <;> decide
  have h2 : ¬q = ' ' := by rcases hq with rfl | rfl <;> decide
  have h3 : ¬q = '#' := by rcases hq with rfl | rfl <;> decide
  have h4 : ¬commaChar q = true := by rcases hq with rfl | rfl <;> decide
  have hqq : (q = dquote || q = squote) = true := by
    rcases hq with rfl | rfl <;> decide
  have htw : (body ++ q :: rest2).takeWhile (strBody q) = body := by
    rw [takeWhile_all_append _ _ hb]
    simp [List.takeWhile_cons, strBody_self]
  have hdw : (body ++ q :: rest2).dropWhile (strBody q) = q :: rest2 := by
    rw [dropWhile_all_append _ _ hb]
    simp [List.dropWhile_cons, strBody_self]
  unfold lexStep
  rw [if_neg h1, if_neg h2, if_neg h3, if_neg h4, if_pos hqq, hdw]
  simp [htw]

/-- A whole input consisting of one well-formed quoted literal lexes as a
single `String` token. -/
theorem lex_string_token (q : Char) (body : List Char)
    (hq : q = dquote ∨ q = squote)
    (hb : ∀ c ∈ body, strBody q c = true) :
    lex (q :: (body ++ [q])) = some [⟨.string, q :: (body ++ [q])⟩] := by
  have hstep := lexStep_string q body [] hq hb
  have hlen : (q :: (body ++ [q])).length = (body ++ [q]).length + 1 := by simp
  unfold lex
  rw [hlen]
  simp only [lexF, hstep]
  simp [lexF]

/-! ## Parser helper lemmas -/

theorem findSome_id_isSome {α : Type} {l : List (Option α)}
    (h : l.any Option.isSome = true) : (l.findSome? id).isSome := by
  induction l with
  | nil => simp at h
  | cons a t ih =>
    rw [List.findSome?_cons]
    cases a with
    | some x => simp
    | none =>
      simp only [List.any_cons, Option.isSome_none, Bool.false_or] at h
      exact ih h

theorem namedParse_isSome {ts : List RTok} (h : matchesNamed ts = true) :
    (namedParse ts).isSome :=
  findSome_id_isSome h

/-- Any successful named parse carries a non-fallback tag. -/
theorem namedParse_tag {ts : List RTok} {c : Command}
    (h : namedParse ts = some c) : c.tag ≠ .errorInvalid := by
  rcases List.exists_of_findSome?_eq_some h with ⟨o, hmem, hid⟩
  simp only [id] at hid
  subst hid
  simp only [namedAlternatives, List.mem_cons, List.not_mem_nil, or_false]
    at hmem
  rcases hmem with h1 | h1 | h1 | h1 | h1 | h1 | h1 | h1 | h1 | h1 | h1 | h1 <;>
  · rcases Option.map_eq_some'.mp h1.symm with ⟨p, -, hc⟩
    subst hc
    simp [Command.tag]

/-- When no named shape matches, the named pass yields nothing. -/
theorem namedParse_none {ts : List RTok} (h : matchesNamed ts = false) :
    namedParse ts = none := by
  rw [namedParse, List.findSome?_eq_none_iff]
  intro x hx
  have hx' : ¬(x.isSome = true) := by
    intro habs
    have : matchesNamed ts = true :=
      List.any_eq_true.mpr ⟨x, hx, habs⟩
    rw [h] at this
    exact Bool.false_ne_true this
  simp only [id]
  exact Option.not_isSome_iff_eq_none.mp hx'

/-- A run of tokens all usable as `Text` has a full spelling list. -/
theorem textsOf_isSome :
    ∀ {ts : List RTok}, (∀ t ∈ ts, (textTok t).isSome) →
      ∃ ws, textsOf ts = some ws ∧ ws.length = ts.length := by
  intro ts
  induction ts with
  | nil => exact fun _ => ⟨[], rfl, rfl⟩
  | cons t ts ih =>
    intro h
    rcases Option.isSome_iff_exists.mp (h t (by simp)) with ⟨w, hw⟩
    rcases ih (fun x hx => h x (by simp [hx])) with ⟨ws, hws, hlen⟩
    refine ⟨w :: ws, ?_, by simp [hlen]⟩
    simp only [textsOf, hw, hws, Option.map_some']

/-- A Dutch-flavoured keyword table, used as a second locale. -/
def nlTable : KwTable where
  ask := "vraag"
  at_ := "op"
  random := "willekeurig"
  print := "druk"
  forward := "vooruit"
  turn := "draai"
  color := "kleur"
  sleep := "slaap"
  play := "speel"
  is := "dat"
  add := "voeg"
  from_ := "uit"
  remove := "verwijder"
  to_list := "aan"
  clear := "wis"

/-- Under a collision-free table, the `print` spelling resolves to the
extended `print` keyword. -/
theorem resolveText_print {t : KwTable} (h : collisionFree t) :
    resolveText t t.print = .ext .print t.print := by
  simp only [collisionFree, List.nodup_cons, List.mem_cons, List.not_mem_nil,
    or_false, not_or, List.nodup_nil, and_true] at h
  obtain ⟨⟨-, -, h1, -⟩, ⟨-, h2, -⟩, ⟨h3, -⟩, -⟩ := h
  rw [resolveText, if_neg (Ne.symm h1), if_neg (Ne.symm h2),
    if_neg (Ne.symm h3), if_pos rfl]

/-- A statement made of the locale's `print` spelling followed by one
String literal parses to a `Print` with that one argument. -/
theorem parse_print_string {t : KwTable} (h : collisionFree t) (s : String) :
    parseStatement [resolveText t t.print, .str s] = some (.print [.str s]) := by
  rw [resolveText_print h]
  rfl

/-! ## Claims -/

/-- Claim C1: for every statement whose token run can be parsed both as
one of the named command shapes (Assign, AssignList, Ask, Clear, Print,
Play, Turtle, Sleep, Add, Remove) and as the fallback ErrorInvalid shape,
the parser returns the named shape and never ErrorInvalid. -/
theorem C1_named_beats_fallback (ts : List RTok)
    (hnamed : matchesNamed ts = true)
    (_hfallback : (errorInvalidP ts).isSome = true) :
    ∃ c, parseStatement ts = some c ∧ c.tag ≠ Tag.errorInvalid := by
  rcases Option.isSome_iff_exists.mp (namedParse_isSome hnamed) with ⟨c, hc⟩
  refine ⟨c, ?_, namedParse_tag hc⟩
  simp only [parseStatement, hc]

theorem C1_witness :
    ∃ c, parseStatement [RTok.ext .print "print", RTok.plain "x"] = some c ∧
      c.tag ≠ Tag.errorInvalid :=
  C1_named_beats_fallback _ (by decide) (by decide)

/-- Claim C2 counterexample: the lexer is not total — a tab character
belongs to no token class (it is neither `Text` nor `Symbol` class), so
lexing a tab fails instead of producing covering tokens. -/
theorem C2_counterexample : lex ['\t'] = none := by decide

/-- Claim C2 (amended): lexing succeeds on every input drawn from the
covered characters (text-class characters, space, newline, `#`, and the
comma separators — tabs, other control characters, and quote characters
are not covered), and whenever lexing succeeds, the tokens' spans are
contiguous, non-overlapping, and exactly cover the input: every token
content is non-empty and the contents concatenate to the input. -/
theorem C2_lexing_partition :
    (∀ cs : List Char, (∀ c ∈ cs, coveredChar c = true) → (lex cs).isSome) ∧
    (∀ (cs : List Char) (toks : List Tok), lex cs = some toks →
      (toks.map Tok.content).flatten = cs ∧ ∀ t ∈ toks, t.content ≠ []) := by
  constructor
  · intro cs h
    exact lexF_total cs.length cs le_rfl h
  · intro cs toks h
    obtain ⟨h1, h2⟩ := lex_sound h
    exact ⟨h1, fun t ht => (h2 t ht).1⟩

theorem C2_witness :
    (lex "print 1".toList).isSome ∧
    ((([⟨.text, "print".toList⟩, ⟨.space, [' ']⟩, ⟨.text, ['1']⟩] :
        List Tok).map Tok.content).flatten = "print 1".toList ∧
      ∀ t ∈ ([⟨.text, "print".toList⟩, ⟨.space, [' ']⟩, ⟨.text, ['1']⟩] :
        List Tok), t.content ≠ []) :=
  ⟨C2_lexing_partition.1 _ (by decide), C2_lexing_partition.2 _ _ (by decide)⟩

/-- Claim C3: the four list-separator comma variants are interchangeable:
`a is 1,2,3` with the ASCII, Arabic, fullwidth and ideographic commas all
parse to an AssignList with three elements, and mixing different variants
within one statement parses to the same AssignList structure. -/
theorem C3_separator_equivalence :
    parseLine enTable "a is 1,2,3" =
      some (.assignList "a" [["1"], ["2"], ["3"]]) ∧
    parseLine enTable "a is 1،2،3" =
      some (.assignList "a" [["1"], ["2"], ["3"]]) ∧
    parseLine enTable "a is 1，2，3" =
      some (.assignList "a" [["1"], ["2"], ["3"]]) ∧
    parseLine enTable "a is 1、2、3" =
      some (.assignList "a" [["1"], ["2"], ["3"]]) ∧
    parseLine enTable "a is 1,2،3" =
      some (.assignList "a" [["1"], ["2"], ["3"]]) ∧
    parseLine enTable "a is 1、2，3" =
      some (.assignList "a" [["1"], ["2"], ["3"]]) :=
  ⟨by decide, by decide, by decide, by decide, by decide, by decide⟩

/-- Claim C4 counterexample: a non-empty statement run that matches no
named shape but contains a String token (a bare `"hi"`) or a separator
token (`1,2`) does not produce an ErrorInvalid node — the fallback shape
is `Text+` only, so the parse fails instead. -/
theorem C4_counterexample :
    parseLine enTable "\"hi\"" = none ∧ parseLine enTable "1,2" = none :=
  ⟨by decide, by decide⟩

/-- Claim C4 (amended): every non-empty statement run consisting solely of
`Text`-class tokens that matches none of the named command shapes parses
to exactly one ErrorInvalid node spanning the whole statement (one
spelling per token of the run); runs containing String or separator
tokens that match no named shape fail to parse instead. -/
theorem C4_fallback_text_runs (ts : List RTok) (h0 : ts ≠ [])
    (h1 : ∀ t ∈ ts, (textTok t).isSome = true)
    (h2 : matchesNamed ts = false) :
    ∃ ws, textsOf ts = some ws ∧ ws.length = ts.length ∧
      parseStatement ts = some (.errorInvalid ws) := by
  rcases textsOf_isSome h1 with ⟨ws, hws, hlen⟩
  refine ⟨ws, hws, hlen, ?_⟩
  have hnp := namedParse_none h2
  have hne : ws.isEmpty = false := by
    cases ts with
    | nil => exact absurd rfl h0
    | cons t ts' =>
      cases ws with
      | nil => simp at hlen
      | cons w ws' => simp
  simp only [parseStatement, hnp, errorInvalidP, hws, hne, Bool.false_eq_true,
    if_false, Option.map_some']

theorem C4_witness :
    ∃ ws, textsOf [RTok.plain "flibbertigibbet"] = some ws ∧
      ws.length = ([RTok.plain "flibbertigibbet"] : List RTok).length ∧
      parseStatement [RTok.plain "flibbertigibbet"] =
        some (.errorInvalid ws) :=
  C4_fallback_text_runs _ (by decide) (by decide) (by decide)

/-- Claim C5 counterexample: `scores at random` and `scores at 2` are not
standalone commands — `ListAccess` is not an alternative of the `Command`
rule, and the specialized `at`/`random` keywords are not `Text`, so the
standalone statements fail to parse (they do not yield a ListAccess
result). -/
theorem C5_counterexample :
    parseLine enTable "scores at random" = none ∧
    parseLine enTable "scores at 2" = none :=
  ⟨by decide, by decide⟩

/-- Claim C5 (amended): inside a carrier statement (an assignment value
slot), `scores at random` and `scores at 2` both parse to a ListAccess on
variable `scores`, differing only in whether the index slot holds the
random marker or an explicit Text token. -/
theorem C5_list_access :
    parseLine enTable "x is scores at random" =
      some (.assign "x" (.la ⟨"scores", .random⟩)) ∧
    parseLine enTable "x is scores at 2" =
      some (.assign "x" (.la ⟨"scores", .idx "2"⟩)) :=
  ⟨by decide, by decide⟩

/-- Claim C6: the four comma code points (U+002C, U+060C, U+FF0C, U+3001)
are excluded from the `Text` character class, a comma character never
occurs inside a `Text` token, commas lex as standalone separator tokens,
and every other code point from U+00A1 up to U+10FFFF is a valid
identifier character. -/
theorem C6_comma_separators :
    (textChar ',' = false ∧ textChar '،' = false ∧ textChar '，' = false ∧
      textChar '、' = false) ∧
    (∀ c : Char, 0xA1 ≤ c.toNat → commaChar c = false →
      identifierChar c = true) ∧
    (∀ (cs : List Char) (toks : List Tok), lex cs = some toks →
      ∀ t ∈ toks, t.kind = .text → ∀ c ∈ t.content, commaChar c = false) ∧
    (∀ (cs : List Char) (toks : List Tok), lex cs = some toks →
      ∀ t ∈ toks, t.kind = .comma → ∃ c, t.content = [c] ∧ commaChar c = true) := by
  refine ⟨⟨by decide, by decide, by decide, by decide⟩, ?_, ?_, ?_⟩
  · intro c h1 h2
    exact identifierChar_of h1 h2
  · intro cs toks h t ht hk c hc
    obtain ⟨-, hok⟩ := (lex_sound h).2 t ht
    rw [TokOk, hk] at hok
    have htc := hok.2 c hc
    cases hcc : commaChar c with
    | false => rfl
    | true =>
      rw [comma_not_text hcc] at htc
      exact absurd htc (by simp)
  · intro cs toks h t ht hk
    obtain ⟨-, hok⟩ := (lex_sound h).2 t ht
    rw [TokOk, hk] at hok
    exact hok

theorem C6_witness :
    identifierChar 'é' = true ∧
    (∀ t ∈ ([⟨.text, ['a']⟩, ⟨.comma, [',']⟩, ⟨.text, ['b']⟩] : List Tok),
      t.kind = .text → ∀ c ∈ t.content, commaChar c = false) ∧
    (∀ t ∈ ([⟨.text, ['a']⟩, ⟨.comma, [',']⟩, ⟨.text, ['b']⟩] : List Tok),
      t.kind = .comma → ∃ c, t.content = [c] ∧ commaChar c = true) :=
  ⟨C6_comma_separators.2.1 'é' (by decide) (by decide),
   C6_comma_separators.2.2.1 "a,b".toList _ (by decide),
   C6_comma_separators.2.2.2 "a,b".toList _ (by decide)⟩

/-- Claim C7 counterexample: the String rule also forbids backslashes
outright (there is no escape mechanism). The input `"a\b"` has a body
with no raw newline and no (unescaped) occurrence of the delimiting
quote, yet it does not lex as a String token: lexing fails on it. -/
theorem C7_counterexample : lex ['"', 'a', '\\', 'b', '"'] = none := by decide

/-- Claim C7 (amended): a String token is a double- or single-quote
delimited run whose body contains no backslash, no raw newline, and no
occurrence of the delimiting quote (there is no escaping); any such
delimited run lexes as one String token, every String token has this
shape, and the two quote styles are independent: each quote character is
a legal body character for the other style. -/
theorem C7_string_tokens :
    (∀ (q : Char) (body : List Char), (q = dquote ∨ q = squote) →
      (∀ c ∈ body, ¬(c = '\\' ∨ c = '\n' ∨ c = q)) →
      lex (q :: (body ++ [q])) = some [⟨.string, q :: (body ++ [q])⟩]) ∧
    (∀ (cs : List Char) (toks : List Tok), lex cs = some toks →
      ∀ t ∈ toks, t.kind = .string →
      ∃ q body, (q = dquote ∨ q = squote) ∧ t.content = q :: (body ++ [q]) ∧
        ∀ c ∈ body, ¬(c = '\\' ∨ c = '\n' ∨ c = q)) ∧
    strBody dquote squote = true ∧ strBody squote dquote = true := by
  refine ⟨?_, ?_, by decide, by decide⟩
  · intro q body hq hb
    refine lex_string_token q body hq fun c hc => ?_
    simp only [strBody, Bool.not_eq_true', Bool.or_eq_false_iff,
      decide_eq_false_iff_not]
    have := hb c hc
    exact ⟨⟨fun h => this (Or.inl h), fun h => this (Or.inr (Or.inl h))⟩,
      fun h => this (Or.inr (Or.inr h))⟩
  · intro cs toks h t ht hk
    obtain ⟨-, hok⟩ := (lex_sound h).2 t ht
    rw [TokOk, hk] at hok
    rcases hok with ⟨q, body, hq, hcontent, hbody⟩
    refine ⟨q, body, hq, hcontent, fun c hc habs => ?_⟩
    have := hbody c hc
    simp only [strBody, Bool.not_eq_true', Bool.or_eq_false_iff,
      decide_eq_false_iff_not] at this
    rcases habs with h | h | h
    exacts [this.1.1 h, this.1.2 h, this.2 h]

theorem C7_witness :
    lex (dquote :: (['a', squote] ++ [dquote])) =
      some [⟨.string, dquote :: (['a', squote] ++ [dquote])⟩] ∧
    (∀ t ∈ ([⟨.string, ['"', 'h', '"']⟩] : List Tok), t.kind = .string →
      ∃ q body, (q = dquote ∨ q = squote) ∧ t.content = q :: (body ++ [q]) ∧
        ∀ c ∈ body, ¬(c = '\\' ∨ c = '\n' ∨ c = q)) :=
  ⟨C7_string_tokens.1 dquote ['a', squote] (Or.inl rfl) (by decide),
   C7_string_tokens.2.1 "\"h\"".toList _ (by decide)⟩

/-- Claim C8: for any two locales whose collision-free keyword tables map
the role `print` to some spelling, parsing each locale's print-statement
equivalent of `print "hi"` (the locale's resolved print spelling followed
by the same String argument) under its own locale yields Command trees
with the same tag (Print) and the same number of argument tokens. -/
theorem C8_locale_independence (t1 t2 : KwTable)
    (h1 : collisionFree t1) (h2 : collisionFree t2) :
    ∃ c1 c2,
      parseStatement [resolveText t1 t1.print, .str "\"hi\""] = some c1 ∧
      parseStatement [resolveText t2 t2.print, .str "\"hi\""] = some c2 ∧
      c1.tag = Tag.print ∧ c2.tag = Tag.print ∧ c1.argCount = c2.argCount :=
  ⟨.print [.str "\"hi\""], .print [.str "\"hi\""],
    parse_print_string h1 _, parse_print_string h2 _, rfl, rfl, rfl⟩

theorem C8_witness :
    ∃ c1 c2,
      parseStatement [resolveText enTable enTable.print, .str "\"hi\""] =
        some c1 ∧
      parseStatement [resolveText nlTable nlTable.print, .str "\"hi\""] =
        some c2 ∧
      c1.tag = Tag.print ∧ c2.tag = Tag.print ∧ c1.argCount = c2.argCount :=
  C8_locale_independence enTable nlTable (by decide) (by decide)

/-- Claim C10: symbol-class punctuation never forms standalone tokens:
any token containing a symbol-class character is a Text (or String or
Comment) token, no two consecutive tokens are both Text tokens (Text runs
are maximal), and `a+b.c` lexes as one single Text token. -/
theorem C10_symbols_absorbed :
    (∀ (cs : List Char) (toks : List Tok), lex cs = some toks →
      toks.Chain' noTextPair) ∧
    (∀ (cs : List Char) (toks : List Tok), lex cs = some toks →
      ∀ t ∈ toks, ∀ c ∈ t.content, symbolChar c = true →
        t.kind = .text ∨ t.kind = .string ∨ t.kind = .comment) ∧
    lex "a+b.c".toList = some [⟨.text, "a+b.c".toList⟩] := by
  refine ⟨fun cs toks h => lexF_chain h, ?_, by decide⟩
  intro cs toks h t ht c hc hsym
  obtain ⟨-, hok⟩ := (lex_sound h).2 t ht
  rw [TokOk] at hok
  rcases hkind : t.kind with _ | _ | _ | _ | _ | _ <;> rw [hkind] at hok
  · exact Or.inl rfl
  · exact Or.inr (Or.inl rfl)
  · exact Or.inr (Or.inr rfl)
  · rw [hok] at hc
    obtain rfl : c = ' ' := by simpa using hc
    exact absurd hsym (by decide)
  · rw [hok] at hc
    obtain rfl : c = '\n' := by simpa using hc
    exact absurd hsym (by decide)
  · rcases hok with ⟨d, hd, hcomma⟩
    rw [hd] at hc
    obtain rfl : c = d := by simpa using hc
    simp only [commaChar, Bool.or_eq_true, decide_eq_true_iff] at hcomma
    simp only [symbolChar, Bool.or_eq_true, decide_eq_true_iff] at hsym
    omega

/-! ## Keyword-run lemmas (claim C9)

Every role-keyword position in the grammar is written `keyword+`, so a
run of one or more identical keywords is accepted wherever one is; per
`@external extend` the run may also stop early, the remaining keyword
tokens serving as `Text`. -/

theorem kwRuns_cons_false {r : Role} {t : RTok} (h : isKw r t = false)
    (l : List RTok) : kwRuns r (t :: l) = [] := by
  simp [kwRuns, h]

theorem kwRuns_cons_true {r : Role} {t : RTok} (h : isKw r t = true)
    (l : List RTok) : kwRuns r (t :: l) = kwRuns r l ++ [l] := by
  simp [kwRuns, h]

/-- A keyword run of length one followed by a non-continuing list. -/
theorem kwRuns_one (r : Role) (t : RTok) (h : isKw r t = true)
    {l : List RTok} (hl : kwRuns r l = []) : kwRuns r (t :: l) = [l] := by
  simp [kwRuns, h, hl]

theorem kwRuns_replicate_none (r : Role) (tk : RTok) (hk : isKw r tk = false)
    (n : Nat) (l : List RTok) (hl : kwRuns r l = []) :
    kwRuns r (List.replicate n tk ++ l) = [] := by
  cases n with
  | zero => simpa using hl
  | succ m =>
    rw [List.replicate_succ, List.cons_append]
    exact kwRuns_cons_false hk _

/-- A non-empty run of `r`-keyword tokens followed by a non-continuing
list: the remainder of the longest keyword run comes first. -/
theorem kwRuns_replicate_cons (r : Role) (tk : RTok) (hk : isKw r tk = true)
    (n : Nat) (l : List RTok) (hl : kwRuns r l = []) :
    ∃ S, kwRuns r (List.replicate (n + 1) tk ++ l) = l :: S := by
  induction n with
  | zero =>
    refine ⟨[], ?_⟩
    rw [show List.replicate 1 tk ++ l = tk :: l by simp]
    exact kwRuns_one r tk hk hl
  | succ m ih =>
    obtain ⟨S, hS⟩ := ih
    refine ⟨S ++ [List.replicate (m + 1) tk ++ l], ?_⟩
    rw [show List.replicate (m + 1 + 1) tk ++ l =
        tk :: (List.replicate (m + 1) tk ++ l) by
      rw [List.replicate_succ, List.cons_append]]
    rw [kwRuns_cons_true hk, hS]
    rfl

theorem textsOf_head_none {t : RTok} (h : textTok t = none) (l : List RTok) :
    textsOf (t :: l) = none := by
  simp [textsOf, h]

theorem splitCommaGroups_no_comma :
    ∀ l : List RTok, (∀ t ∈ l, t.isComma = false) → splitCommaGroups l = [l] := by
  intro l
  induction l with
  | nil => intro _; rfl
  | cons t ts ih =>
    intro h
    have ht := h t (by simp)
    have hts := ih fun x hx => h x (by simp [hx])
    cases t with
    | comma c => simp [RTok.isComma] at ht
    | plain w => simp [splitCommaGroups, hts]
    | ext r w => simp [splitCommaGroups, hts]
    | spec r w => simp [splitCommaGroups, hts]
    | str w => simp [splitCommaGroups, hts]

theorem assignP_none_of_is {t : RTok} {ts1 : List RTok}
    (h : kwRuns .is ts1 = []) : assignP (t :: ts1) = none := by
  cases htt : textTok t <;> simp [assignP, h, htt]

theorem assignListP_none_of_is {t : RTok} {ts1 : List RTok}
    (h : kwRuns .is ts1 = []) : assignListP (t :: ts1) = none := by
  cases htt : textTok t <;> simp [assignListP, h, htt]

theorem askP_none_of_is {t : RTok} {ts1 : List RTok}
    (h : kwRuns .is ts1 = []) : askP (t :: ts1) = none := by
  cases htt : textTok t <;> simp [askP, h, htt]

theorem clearP_none_of {ts : List RTok} (h : kwRuns .clear ts = []) :
    clearP ts = none := by
  simp [clearP, h]

theorem printP_none_of {ts : List RTok} (h : kwRuns .print ts = []) :
    printP ts = none := by
  simp [printP, h]

theorem playP_none_of {ts : List RTok} (h : kwRuns .play ts = []) :
    playP ts = none := by
  simp [playP, h]

theorem forwardP_none_of {ts : List RTok} (h : kwRuns .forward ts = []) :
    forwardP ts = none := by
  simp [forwardP, h]

theorem turnP_none_of {ts : List RTok} (h : kwRuns .turn ts = []) :
    turnP ts = none := by
  simp [turnP, h]

theorem colorP_none_of {ts : List RTok} (h : kwRuns .color ts = []) :
    colorP ts = none := by
  simp [colorP, h]

theorem sleepP_none_of {ts : List RTok} (h : kwRuns .sleep ts = []) :
    sleepP ts = none := by
  simp [sleepP, h]

theorem addP_none_of {ts : List RTok} (h : kwRuns .add ts = []) :
    addP ts = none := by
  simp [addP, h]

theorem clearP_head_none {t : RTok} (h : isKw .clear t = false) :
    ∀ l, clearP (t :: l) = none :=
  fun l => clearP_none_of (kwRuns_cons_false h l)

theorem printP_head_none {t : RTok} (h : isKw .print t = false) :
    ∀ l, printP (t :: l) = none :=
  fun l => printP_none_of (kwRuns_cons_false h l)

theorem playP_head_none {t : RTok} (h : isKw .play t = false) :
    ∀ l, playP (t :: l) = none :=
  fun l => playP_none_of (kwRuns_cons_false h l)

theorem forwardP_head_none {t : RTok} (h : isKw .forward t = false) :
    ∀ l, forwardP (t :: l) = none :=
  fun l => forwardP_none_of (kwRuns_cons_false h l)

theorem turnP_head_none {t : RTok} (h : isKw .turn t = false) :
    ∀ l, turnP (t :: l) = none :=
  fun l => turnP_none_of (kwRuns_cons_false h l)

theorem colorP_head_none {t : RTok} (h : isKw .color t = false) :
    ∀ l, colorP (t :: l) = none :=
  fun l => colorP_none_of (kwRuns_cons_false h l)

theorem sleepP_head_none {t : RTok} (h : isKw .sleep t = false) :
    ∀ l, sleepP (t :: l) = none :=
  fun l => sleepP_none_of (kwRuns_cons_false h l)

theorem addP_head_none {t : RTok} (h : isKw .add t = false) :
    ∀ l, addP (t :: l) = none :=
  fun l => addP_none_of (kwRuns_cons_false h l)

/-- Keyword runs in the `is` position: `a is… b` stays an Assign. -/
theorem c9_is_run (n : Nat) :
    parseStatement (RTok.plain "a" ::
        (List.replicate (n + 1) (RTok.ext .is "is") ++ [RTok.plain "b"])) =
      some (.assign "a" (.texts ["b"])) := by
  obtain ⟨S, hS⟩ := kwRuns_replicate_cons .is (RTok.ext .is "is") (by decide)
    n [RTok.plain "b"] (by decide)
  have hval : assignValP [RTok.plain "b"] = some (.texts ["b"]) := by decide
  have hass : assignP (RTok.plain "a" ::
      (List.replicate (n + 1) (RTok.ext .is "is") ++ [RTok.plain "b"])) =
      some ("a", .texts ["b"]) := by
    simp [assignP, textTok, hS, List.findSome?_cons, hval]
  simp [parseStatement, namedParse, namedAlternatives, hass,
    List.findSome?_cons]

/-- Keyword runs in the `print` position keep the Print tag. -/
theorem c9_print_run (n : Nat) :
    parseStatement
        (List.replicate (n + 1) (RTok.ext .print "print") ++ [RTok.plain "x"]) =
      some (.print [.txt "x"]) := by
  have hisr : kwRuns .is
      (List.replicate n (RTok.ext .print "print") ++ [RTok.plain "x"]) = [] :=
    kwRuns_replicate_none .is (RTok.ext .print "print") (by decide) n _
      (by decide)
  obtain ⟨S, hS⟩ := kwRuns_replicate_cons .print (RTok.ext .print "print")
    (by decide) n [RTok.plain "x"] (by decide)
  have hargs : argsP [RTok.plain "x"] = some [Arg.txt "x"] := by decide
  have hass : assignP
      (List.replicate (n + 1) (RTok.ext .print "print") ++ [RTok.plain "x"]) =
      none := by
    rw [List.replicate_succ, List.cons_append]
    exact assignP_none_of_is hisr
  have hassL : assignListP
      (List.replicate (n + 1) (RTok.ext .print "print") ++ [RTok.plain "x"]) =
      none := by
    rw [List.replicate_succ, List.cons_append]
    exact assignListP_none_of_is hisr
  have hask : askP
      (List.replicate (n + 1) (RTok.ext .print "print") ++ [RTok.plain "x"]) =
      none := by
    rw [List.replicate_succ, List.cons_append]
    exact askP_none_of_is hisr
  have hclear : clearP
      (List.replicate (n + 1) (RTok.ext .print "print") ++ [RTok.plain "x"]) =
      none := by
    rw [List.replicate_succ, List.cons_append]
    exact clearP_head_none (t := RTok.ext .print "print") (by decide) _
  have hpr : printP
      (List.replicate (n + 1) (RTok.ext .print "print") ++ [RTok.plain "x"]) =
      some [.txt "x"] := by
    simp [printP, hS, List.findSome?_cons, hargs]
  simp [parseStatement, namedParse, namedAlternatives, hass, hassL, hask,
    hclear, hpr, List.findSome?_cons]

/-- Keyword runs in the `ask` position keep the Ask tag. -/
theorem c9_ask_run (n : Nat) :
    parseStatement (RTok.plain "a" :: RTok.ext .is "is" ::
        (List.replicate (n + 1) (RTok.spec .ask "ask") ++
          [RTok.str "\"q\""])) =
      some (.ask "a" [.str "\"q\""]) := by
  have hXis : kwRuns .is
      (List.replicate (n + 1) (RTok.spec .ask "ask") ++ [RTok.str "\"q\""]) =
      [] :=
    kwRuns_replicate_none .is (RTok.spec .ask "ask") (by decide) (n + 1) _
      (by decide)
  have hrest : kwRuns .is (RTok.ext .is "is" ::
      (List.replicate (n + 1) (RTok.spec .ask "ask") ++ [RTok.str "\"q\""])) =
      [List.replicate (n + 1) (RTok.spec .ask "ask") ++ [RTok.str "\"q\""]] :=
    kwRuns_one .is _ (by decide) hXis
  have htx : textsOf
      (List.replicate (n + 1) (RTok.spec .ask "ask") ++ [RTok.str "\"q\""]) =
      none := by
    rw [List.replicate_succ, List.cons_append]
    exact textsOf_head_none (by decide) _
  have hla : listAccessP
      (List.replicate (n + 1) (RTok.spec .ask "ask") ++ [RTok.str "\"q\""]) =
      none := by
    rw [List.replicate_succ, List.cons_append]
    simp [listAccessP, textTok]
  have hval : assignValP
      (List.replicate (n + 1) (RTok.spec .ask "ask") ++ [RTok.str "\"q\""]) =
      none := by
    simp [assignValP, htx, hla]
  have hass : assignP (RTok.plain "a" :: RTok.ext .is "is" ::
      (List.replicate (n + 1) (RTok.spec .ask "ask") ++ [RTok.str "\"q\""])) =
      none := by
    simp [assignP, textTok, hrest, List.findSome?_cons, hval]
  have hmem : ∀ t ∈ (List.replicate (n + 1) (RTok.spec .ask "ask") ++
      [RTok.str "\"q\""]), t.isComma = false := by
    intro t ht
    rcases List.mem_append.mp ht with h | h
    · rw [List.eq_of_mem_replicate h]; rfl
    · simp only [List.mem_singleton] at h; subst h; rfl
  have hgroups := splitCommaGroups_no_comma _ hmem
  have hgt : groupTexts
      (List.replicate (n + 1) (RTok.spec .ask "ask") ++ [RTok.str "\"q\""]) =
      none := by
    simp [groupTexts, htx]
  have hgrps : assignGroupsP
      (List.replicate (n + 1) (RTok.spec .ask "ask") ++ [RTok.str "\"q\""]) =
      none := by
    simp [assignGroupsP, hgroups, groupsTexts, hgt]
  have hassL : assignListP (RTok.plain "a" :: RTok.ext .is "is" ::
      (List.replicate (n + 1) (RTok.spec .ask "ask") ++ [RTok.str "\"q\""])) =
      none := by
    simp [assignListP, textTok, hrest, List.findSome?_cons, hgrps]
  obtain ⟨S, hS⟩ := kwRuns_replicate_cons .ask (RTok.spec .ask "ask")
    (by decide) n [RTok.str "\"q\""] (by decide)
  have hargs : argsP [RTok.str "\"q\""] = some [Arg.str "\"q\""] := by decide
  have htail : askTailP
      (List.replicate (n + 1) (RTok.spec .ask "ask") ++ [RTok.str "\"q\""]) =
      some [Arg.str "\"q\""] := by
    simp [askTailP, hS, List.findSome?_cons, hargs]
  have haskP : askP (RTok.plain "a" :: RTok.ext .is "is" ::
      (List.replicate (n + 1) (RTok.spec .ask "ask") ++ [RTok.str "\"q\""])) =
      some ("a", [Arg.str "\"q\""]) := by
    simp [askP, textTok, hrest, List.findSome?_cons, htail]
  simp [parseStatement, namedParse, namedAlternatives, hass, hassL, haskP,
    List.findSome?_cons]

/-- Keyword runs in the `at` position: the carrier Assign still parses,
with the same ListAccess. -/
theorem c9_at_run (n : Nat) :
    parseStatement (RTok.plain "x" :: RTok.ext .is "is" ::
        RTok.plain "scores" ::
        (List.replicate (n + 1) (RTok.spec .at_ "at") ++ [RTok.plain "2"])) =
      some (.assign "x" (.la ⟨"scores", .idx "2"⟩)) := by
  have hYis : kwRuns .is (RTok.plain "scores" ::
      (List.replicate (n + 1) (RTok.spec .at_ "at") ++ [RTok.plain "2"])) =
      [] := kwRuns_cons_false (by decide) _
  have hrest : kwRuns .is (RTok.ext .is "is" :: RTok.plain "scores" ::
      (List.replicate (n + 1) (RTok.spec .at_ "at") ++ [RTok.plain "2"])) =
      [RTok.plain "scores" ::
        (List.replicate (n + 1) (RTok.spec .at_ "at") ++ [RTok.plain "2"])] :=
    kwRuns_one .is _ (by decide) hYis
  have htxX : textsOf
      (List.replicate (n + 1) (RTok.spec .at_ "at") ++ [RTok.plain "2"]) =
      none := by
    rw [List.replicate_succ, List.cons_append]
    exact textsOf_head_none (by decide) _
  have htx : textsOf (RTok.plain "scores" ::
      (List.replicate (n + 1) (RTok.spec .at_ "at") ++ [RTok.plain "2"])) =
      none := by
    simp [textsOf, textTok, htxX]
  obtain ⟨S, hatS⟩ := kwRuns_replicate_cons .at_ (RTok.spec .at_ "at")
    (by decide) n [RTok.plain "2"] (by decide)
  have hidx : laIndexP "scores" [RTok.plain "2"] =
      some ⟨"scores", .idx "2"⟩ := by decide
  have hla : listAccessP (RTok.plain "scores" ::
      (List.replicate (n + 1) (RTok.spec .at_ "at") ++ [RTok.plain "2"])) =
      some ⟨"scores", .idx "2"⟩ := by
    simp [listAccessP, textTok, hatS, List.findSome?_cons, hidx]
  have hval : assignValP (RTok.plain "scores" ::
      (List.replicate (n + 1) (RTok.spec .at_ "at") ++ [RTok.plain "2"])) =
      some (.la ⟨"scores", .idx "2"⟩) := by
    simp [assignValP, htx, hla]
  have hass : assignP (RTok.plain "x" :: RTok.ext .is "is" ::
      RTok.plain "scores" ::
      (List.replicate (n + 1) (RTok.spec .at_ "at") ++ [RTok.plain "2"])) =
      some ("x", .la ⟨"scores", .idx "2"⟩) := by
    simp [assignP, textTok, hrest, List.findSome?_cons, hval]
  simp [parseStatement, namedParse, namedAlternatives, hass,
    List.findSome?_cons]

/-- Keyword runs in the `random` position: the carrier Assign still
parses, with the random-marker ListAccess. -/
theorem c9_random_run (n : Nat) :
    parseStatement (RTok.plain "x" :: RTok.ext .is "is" ::
        RTok.plain "scores" :: RTok.spec .at_ "at" ::
        List.replicate (n + 1) (RTok.spec .random "random")) =
      some (.assign "x" (.la ⟨"scores", .random⟩)) := by
  have hR : kwRuns .at_
      (List.replicate (n + 1) (RTok.spec .random "random")) = [] := by
    rw [← List.append_nil (List.replicate (n + 1) (RTok.spec .random "random"))]
    exact kwRuns_replicate_none .at_ (RTok.spec .random "random") (by decide)
      (n + 1) [] rfl
  have hYis : kwRuns .is (RTok.plain "scores" :: RTok.spec .at_ "at" ::
      List.replicate (n + 1) (RTok.spec .random "random")) = [] :=
    kwRuns_cons_false (by decide) _
  have hrest : kwRuns .is (RTok.ext .is "is" :: RTok.plain "scores" ::
      RTok.spec .at_ "at" ::
      List.replicate (n + 1) (RTok.spec .random "random")) =
      [RTok.plain "scores" :: RTok.spec .at_ "at" ::
        List.replicate (n + 1) (RTok.spec .random "random")] :=
    kwRuns_one .is _ (by decide) hYis
  have htx : textsOf (RTok.plain "scores" :: RTok.spec .at_ "at" ::
      List.replicate (n + 1) (RTok.spec .random "random")) = none := by
    simp [textsOf, textTok]
  have hkat : kwRuns .at_ (RTok.spec .at_ "at" ::
      List.replicate (n + 1) (RTok.spec .random "random")) =
      [List.replicate (n + 1) (RTok.spec .random "random")] :=
    kwRuns_one .at_ _ (by decide) hR
  have hidx : laIndexP "scores"
      (List.replicate (n + 1) (RTok.spec .random "random")) =
      some ⟨"scores", .random⟩ := by
    have h1 : (List.replicate (n + 1) (RTok.spec .random "random")).isEmpty =
        false := by
      rw [List.replicate_succ]; rfl
    have h2 : (List.replicate (n + 1) (RTok.spec .random "random")).all
        (isKw .random) = true := by
      rw [List.all_eq_true]
      intro x hx
      rw [List.eq_of_mem_replicate hx]
      decide
    simp [laIndexP, h1, h2]
  have hla : listAccessP (RTok.plain "scores" :: RTok.spec .at_ "at" ::
      List.replicate (n + 1) (RTok.spec .random "random")) =
      some ⟨"scores", .random⟩ := by
    simp [listAccessP, textTok, hkat, List.findSome?_cons, hidx]
  have hval : assignValP (RTok.plain "scores" :: RTok.spec .at_ "at" ::
      List.replicate (n + 1) (RTok.spec .random "random")) =
      some (.la ⟨"scores", .random⟩) := by
    simp [assignValP, htx, hla]
  have hass : assignP (RTok.plain "x" :: RTok.ext .is "is" ::
      RTok.plain "scores" :: RTok.spec .at_ "at" ::
      List.replicate (n + 1) (RTok.spec .random "random")) =
      some ("x", .la ⟨"scores", .random⟩) := by
    simp [assignP, textTok, hrest, List.findSome?_cons, hval]
  simp [parseStatement, namedParse, namedAlternatives, hass,
    List.findSome?_cons]

/-- Keyword runs in the `clear` position: `clear clear …` is one Clear. -/
theorem c9_clear_run (n : Nat) :
    parseStatement (List.replicate (n + 1) (RTok.ext .clear "clear")) =
      some .clear := by
  have hisr : kwRuns .is (List.replicate n (RTok.ext .clear "clear")) = [] := by
    rw [← List.append_nil (List.replicate n (RTok.ext .clear "clear"))]
    exact kwRuns_replicate_none .is (RTok.ext .clear "clear") (by decide) n []
      rfl
  have hass : assignP (List.replicate (n + 1) (RTok.ext .clear "clear")) =
      none := by
    rw [List.replicate_succ]
    exact assignP_none_of_is hisr
  have hassL : assignListP (List.replicate (n + 1) (RTok.ext .clear "clear")) =
      none := by
    rw [List.replicate_succ]
    exact assignListP_none_of_is hisr
  have hask : askP (List.replicate (n + 1) (RTok.ext .clear "clear")) =
      none := by
    rw [List.replicate_succ]
    exact askP_none_of_is hisr
  obtain ⟨S, hS⟩ : ∃ S,
      kwRuns .clear (List.replicate (n + 1) (RTok.ext .clear "clear")) =
        [] :: S := by
    have h := kwRuns_replicate_cons .clear (RTok.ext .clear "clear")
      (by decide) n [] rfl
    rwa [List.append_nil] at h
  have hclearP : clearP (List.replicate (n + 1) (RTok.ext .clear "clear")) =
      some () := by
    simp [clearP, hS, List.findSome?_cons]
  simp [parseStatement, namedParse, namedAlternatives, hass, hassL, hask,
    hclearP, List.findSome?_cons]

/-- Keyword runs in the `sleep` position keep the Sleep tag. -/
theorem c9_sleep_run (n : Nat) :
    parseStatement
        (List.replicate (n + 1) (RTok.ext .sleep "sleep") ++ [RTok.plain "5"]) =
      some (.sleep (some (.txt "5"))) := by
  rw [List.replicate_succ, List.cons_append]
  have hisr : kwRuns .is
      (List.replicate n (RTok.ext .sleep "sleep") ++ [RTok.plain "5"]) = [] :=
    kwRuns_replicate_none .is (RTok.ext .sleep "sleep") (by decide) n _
      (by decide)
  obtain ⟨S, hS⟩ := kwRuns_replicate_cons .sleep (RTok.ext .sleep "sleep")
    (by decide) n [RTok.plain "5"] (by decide)
  rw [List.replicate_succ, List.cons_append] at hS
  have htail : sleepTailP [RTok.plain "5"] = some (some (.txt "5")) := by
    decide
  have hsl : sleepP (RTok.ext .sleep "sleep" ::
      (List.replicate n (RTok.ext .sleep "sleep") ++ [RTok.plain "5"])) =
      some (some (.txt "5")) := by
    simp [sleepP, hS, List.findSome?_cons, htail]
  simp [parseStatement, namedParse, namedAlternatives,
    assignP_none_of_is hisr, assignListP_none_of_is hisr, askP_none_of_is hisr,
    clearP_head_none (t := RTok.ext .sleep "sleep") (by decide),
    printP_head_none (t := RTok.ext .sleep "sleep") (by decide),
    playP_head_none (t := RTok.ext .sleep "sleep") (by decide),
    forwardP_head_none (t := RTok.ext .sleep "sleep") (by decide),
    turnP_head_none (t := RTok.ext .sleep "sleep") (by decide),
    colorP_head_none (t := RTok.ext .sleep "sleep") (by decide),
    hsl, List.findSome?_cons]

/-- Keyword runs in the `play` position keep the Play tag. -/
theorem c9_play_run (n : Nat) :
    parseStatement
        (List.replicate (n + 1) (RTok.ext .play "play") ++ [RTok.plain "c4"]) =
      some (.play (.texts ["c4"])) := by
  rw [List.replicate_succ, List.cons_append]
  have hisr : kwRuns .is
      (List.replicate n (RTok.ext .play "play") ++ [RTok.plain "c4"]) = [] :=
    kwRuns_replicate_none .is (RTok.ext .play "play") (by decide) n _
      (by decide)
  obtain ⟨S, hS⟩ := kwRuns_replicate_cons .play (RTok.ext .play "play")
    (by decide) n [RTok.plain "c4"] (by decide)
  rw [List.replicate_succ, List.cons_append] at hS
  have htail : playTailP [RTok.plain "c4"] = some (.texts ["c4"]) := by decide
  have hpl : playP (RTok.ext .play "play" ::
      (List.replicate n (RTok.ext .play "play") ++ [RTok.plain "c4"])) =
      some (.texts ["c4"]) := by
    simp [playP, hS, List.findSome?_cons, htail]
  simp [parseStatement, namedParse, namedAlternatives,
    assignP_none_of_is hisr, assignListP_none_of_is hisr, askP_none_of_is hisr,
    clearP_head_none (t := RTok.ext .play "play") (by decide),
    printP_head_none (t := RTok.ext .play "play") (by decide),
    hpl, List.findSome?_cons]

/-- Keyword runs in the `forward` position keep the Forward tag. -/
theorem c9_forward_run (n : Nat) :
    parseStatement
        (List.replicate (n + 1) (RTok.ext .forward "forward") ++
          [RTok.plain "10"]) =
      some (.forward (.txt "10")) := by
  rw [List.replicate_succ, List.cons_append]
  have hisr : kwRuns .is
      (List.replicate n (RTok.ext .forward "forward") ++ [RTok.plain "10"]) =
      [] :=
    kwRuns_replicate_none .is (RTok.ext .forward "forward") (by decide) n _
      (by decide)
  obtain ⟨S, hS⟩ := kwRuns_replicate_cons .forward (RTok.ext .forward "forward")
    (by decide) n [RTok.plain "10"] (by decide)
  rw [List.replicate_succ, List.cons_append] at hS
  have hone : oneArgP [RTok.plain "10"] = some (.txt "10") := by decide
  have hfw : forwardP (RTok.ext .forward "forward" ::
      (List.replicate n (RTok.ext .forward "forward") ++ [RTok.plain "10"])) =
      some (.txt "10") := by
    simp [forwardP, hS, List.findSome?_cons, hone]
  simp [parseStatement, namedParse, namedAlternatives,
    assignP_none_of_is hisr, assignListP_none_of_is hisr, askP_none_of_is hisr,
    clearP_head_none (t := RTok.ext .forward "forward") (by decide),
    printP_head_none (t := RTok.ext .forward "forward") (by decide),
    playP_head_none (t := RTok.ext .forward "forward") (by decide),
    hfw, List.findSome?_cons]

/-- Keyword runs in the `turn` position keep the Turn tag. -/
theorem c9_turn_run (n : Nat) :
    parseStatement
        (List.replicate (n + 1) (RTok.ext .turn "turn") ++ [RTok.plain "90"]) =
      some (.turn (.txt "90")) := by
  rw [List.replicate_succ, List.cons_append]
  have hisr : kwRuns .is
      (List.replicate n (RTok.ext .turn "turn") ++ [RTok.plain "90"]) = [] :=
    kwRuns_replicate_none .is (RTok.ext .turn "turn") (by decide) n _
      (by decide)
  obtain ⟨S, hS⟩ := kwRuns_replicate_cons .turn (RTok.ext .turn "turn")
    (by decide) n [RTok.plain "90"] (by decide)
  rw [List.replicate_succ, List.cons_append] at hS
  have hone : oneArgP [RTok.plain "90"] = some (.txt "90") := by decide
  have htn : turnP (RTok.ext .turn "turn" ::
      (List.replicate n (RTok.ext .turn "turn") ++ [RTok.plain "90"])) =
      some (.txt "90") := by
    simp [turnP, hS, List.findSome?_cons, hone]
  simp [parseStatement, namedParse, namedAlternatives,
    assignP_none_of_is hisr, assignListP_none_of_is hisr, askP_none_of_is hisr,
    clearP_head_none (t := RTok.ext .turn "turn") (by decide),
    printP_head_none (t := RTok.ext .turn "turn") (by decide),
    playP_head_none (t := RTok.ext .turn "turn") (by decide),
    forwardP_head_none (t := RTok.ext .turn "turn") (by decide),
    htn, List.findSome?_cons]

/-- Keyword runs in the `color` position keep the Color tag. -/
theorem c9_color_run (n : Nat) :
    parseStatement
        (List.replicate (n + 1) (RTok.ext .color "color") ++
          [RTok.plain "red"]) =
      some (.color (.txt "red")) := by
  rw [List.replicate_succ, List.cons_append]
  have hisr : kwRuns .is
      (List.replicate n (RTok.ext .color "color") ++ [RTok.plain "red"]) =
      [] :=
    kwRuns_replicate_none .is (RTok.ext .color "color") (by decide) n _
      (by decide)
  obtain ⟨S, hS⟩ := kwRuns_replicate_cons .color (RTok.ext .color "color")
    (by decide) n [RTok.plain "red"] (by decide)
  rw [List.replicate_succ, List.cons_append] at hS
  have hone : oneArgP [RTok.plain "red"] = some (.txt "red") := by decide
  have hcl : colorP (RTok.ext .color "color" ::
      (List.replicate n (RTok.ext .color "color") ++ [RTok.plain "red"])) =
      some (.txt "red") := by
    simp [colorP, hS, List.findSome?_cons, hone]
  simp [parseStatement, namedParse, namedAlternatives,
    assignP_none_of_is hisr, assignListP_none_of_is hisr, askP_none_of_is hisr,
    clearP_head_none (t := RTok.ext .color "color") (by decide),
    printP_head_none (t := RTok.ext .color "color") (by decide),
    playP_head_none (t := RTok.ext .color "color") (by decide),
    forwardP_head_none (t := RTok.ext .color "color") (by decide),
    turnP_head_none (t := RTok.ext .color "color") (by decide),
    hcl, List.findSome?_cons]

/-- Keyword runs in the `add` position keep the Add tag. -/
theorem c9_add_run (n : Nat) :
    parseStatement (List.replicate (n + 1) (RTok.ext .add "add") ++
        [RTok.plain "x", RTok.ext .to_list "to_list", RTok.plain "l"]) =
      some (.add ["x"] "l") := by
  rw [List.replicate_succ, List.cons_append]
  have hisr : kwRuns .is (List.replicate n (RTok.ext .add "add") ++
      [RTok.plain "x", RTok.ext .to_list "to_list", RTok.plain "l"]) = [] :=
    kwRuns_replicate_none .is (RTok.ext .add "add") (by decide) n _ (by decide)
  obtain ⟨S, hS⟩ := kwRuns_replicate_cons .add (RTok.ext .add "add")
    (by decide) n [RTok.plain "x", RTok.ext .to_list "to_list", RTok.plain "l"]
    (by decide)
  rw [List.replicate_succ, List.cons_append] at hS
  have htail : (splitsTextPlus [RTok.plain "x", RTok.ext .to_list "to_list",
      RTok.plain "l"]).findSome? addTailP = some (["x"], "l") := by decide
  have had : addP (RTok.ext .add "add" ::
      (List.replicate n (RTok.ext .add "add") ++
        [RTok.plain "x", RTok.ext .to_list "to_list", RTok.plain "l"])) =
      some (["x"], "l") := by
    simp [addP, hS, List.findSome?_cons, htail]
  simp [parseStatement, namedParse, namedAlternatives,
    assignP_none_of_is hisr, assignListP_none_of_is hisr, askP_none_of_is hisr,
    clearP_head_none (t := RTok.ext .add "add") (by decide),
    printP_head_none (t := RTok.ext .add "add") (by decide),
    playP_head_none (t := RTok.ext .add "add") (by decide),
    forwardP_head_none (t := RTok.ext .add "add") (by decide),
    turnP_head_none (t := RTok.ext .add "add") (by decide),
    colorP_head_none (t := RTok.ext .add "add") (by decide),
    sleepP_head_none (t := RTok.ext .add "add") (by decide),
    had, List.findSome?_cons]

/-- Keyword runs in the `to_list` position keep the Add tag. -/
theorem c9_to_list_run (n : Nat) :
    parseStatement (RTok.ext .add "add" :: RTok.plain "x" ::
        (List.replicate (n + 1) (RTok.ext .to_list "to_list") ++
          [RTok.plain "l"])) =
      some (.add ["x"] "l") := by
  have hisr : kwRuns .is (RTok.plain "x" ::
      (List.replicate (n + 1) (RTok.ext .to_list "to_list") ++
        [RTok.plain "l"])) = [] := kwRuns_cons_false (by decide) _
  have hZadd : kwRuns .add (RTok.plain "x" ::
      (List.replicate (n + 1) (RTok.ext .to_list "to_list") ++
        [RTok.plain "l"])) = [] := kwRuns_cons_false (by decide) _
  have hkad : kwRuns .add (RTok.ext .add "add" :: RTok.plain "x" ::
      (List.replicate (n + 1) (RTok.ext .to_list "to_list") ++
        [RTok.plain "l"])) =
      [RTok.plain "x" ::
        (List.replicate (n + 1) (RTok.ext .to_list "to_list") ++
          [RTok.plain "l"])] :=
    kwRuns_one .add _ (by decide) hZadd
  obtain ⟨S, hS⟩ := kwRuns_replicate_cons .to_list (RTok.ext .to_list "to_list")
    (by decide) n [RTok.plain "l"] (by decide)
  have htl : addTailP (["x"],
      List.replicate (n + 1) (RTok.ext .to_list "to_list") ++
        [RTok.plain "l"]) = some (["x"], "l") := by
    simp [addTailP, hS, List.findSome?_cons, textTok]
  have hsplit : splitsTextPlus (RTok.plain "x" ::
      (List.replicate (n + 1) (RTok.ext .to_list "to_list") ++
        [RTok.plain "l"])) =
      (["x"], List.replicate (n + 1) (RTok.ext .to_list "to_list") ++
          [RTok.plain "l"]) ::
        (splitsTextPlus (List.replicate (n + 1) (RTok.ext .to_list "to_list") ++
          [RTok.plain "l"])).map (fun p => ("x" :: p.1, p.2)) := by
    simp [splitsTextPlus, textTok]
  have had : addP (RTok.ext .add "add" :: RTok.plain "x" ::
      (List.replicate (n + 1) (RTok.ext .to_list "to_list") ++
        [RTok.plain "l"])) = some (["x"], "l") := by
    simp [addP, hkad, List.findSome?_cons, hsplit, htl]
  simp [parseStatement, namedParse, namedAlternatives,
    assignP_none_of_is hisr, assignListP_none_of_is hisr, askP_none_of_is hisr,
    clearP_head_none (t := RTok.ext .add "add") (by decide),
    printP_head_none (t := RTok.ext .add "add") (by decide),
    playP_head_none (t := RTok.ext .add "add") (by decide),
    forwardP_head_none (t := RTok.ext .add "add") (by decide),
    turnP_head_none (t := RTok.ext .add "add") (by decide),
    colorP_head_none (t := RTok.ext .add "add") (by decide),
    sleepP_head_none (t := RTok.ext .add "add") (by decide),
    had, List.findSome?_cons]

/-- Keyword runs in the `remove` position keep the Remove tag. -/
theorem c9_remove_run (n : Nat) :
    parseStatement (List.replicate (n + 1) (RTok.ext .remove "remove") ++
        [RTok.plain "x", RTok.ext .from_ "from", RTok.plain "l"]) =
      some (.remove ["x"] "l") := by
  rw [List.replicate_succ, List.cons_append]
  have hisr : kwRuns .is (List.replicate n (RTok.ext .remove "remove") ++
      [RTok.plain "x", RTok.ext .from_ "from", RTok.plain "l"]) = [] :=
    kwRuns_replicate_none .is (RTok.ext .remove "remove") (by decide) n _
      (by decide)
  obtain ⟨S, hS⟩ := kwRuns_replicate_cons .remove (RTok.ext .remove "remove")
    (by decide) n [RTok.plain "x", RTok.ext .from_ "from", RTok.plain "l"]
    (by decide)
  rw [List.replicate_succ, List.cons_append] at hS
  have htail : (splitsTextPlus [RTok.plain "x", RTok.ext .from_ "from",
      RTok.plain "l"]).findSome? removeTailP = some (["x"], "l") := by decide
  have hrm : removeP (RTok.ext .remove "remove" ::
      (List.replicate n (RTok.ext .remove "remove") ++
        [RTok.plain "x", RTok.ext .from_ "from", RTok.plain "l"])) =
      some (["x"], "l") := by
    simp [removeP, hS, List.findSome?_cons, htail]
  simp [parseStatement, namedParse, namedAlternatives,
    assignP_none_of_is hisr, assignListP_none_of_is hisr, askP_none_of_is hisr,
    clearP_head_none (t := RTok.ext .remove "remove") (by decide),
    printP_head_none (t := RTok.ext .remove "remove") (by decide),
    playP_head_none (t := RTok.ext .remove "remove") (by decide),
    forwardP_head_none (t := RTok.ext .remove "remove") (by decide),
    turnP_head_none (t := RTok.ext .remove "remove") (by decide),
    colorP_head_none (t := RTok.ext .remove "remove") (by decide),
    sleepP_head_none (t := RTok.ext .remove "remove") (by decide),
    addP_head_none (t := RTok.ext .remove "remove") (by decide),
    hrm, List.findSome?_cons]

/-- Keyword runs in the `from` position keep the Remove tag. -/
theorem c9_from_run (n : Nat) :
    parseStatement (RTok.ext .remove "remove" :: RTok.plain "x" ::
        (List.replicate (n + 1) (RTok.ext .from_ "from") ++
          [RTok.plain "l"])) =
      some (.remove ["x"] "l") := by
  have hisr : kwRuns .is (RTok.plain "x" ::
      (List.replicate (n + 1) (RTok.ext .from_ "from") ++
        [RTok.plain "l"])) = [] := kwRuns_cons_false (by decide) _
  have hZrm : kwRuns .remove (RTok.plain "x" ::
      (List.replicate (n + 1) (RTok.ext .from_ "from") ++
        [RTok.plain "l"])) = [] := kwRuns_cons_false (by decide) _
  have hkrm : kwRuns .remove (RTok.ext .remove "remove" :: RTok.plain "x" ::
      (List.replicate (n + 1) (RTok.ext .from_ "from") ++
        [RTok.plain "l"])) =
      [RTok.plain "x" ::
        (List.replicate (n + 1) (RTok.ext .from_ "from") ++
          [RTok.plain "l"])] :=
    kwRuns_one .remove _ (by decide) hZrm
  obtain ⟨S, hS⟩ := kwRuns_replicate_cons .from_ (RTok.ext .from_ "from")
    (by decide) n [RTok.plain "l"] (by decide)
  have htl : removeTailP (["x"],
      List.replicate (n + 1) (RTok.ext .from_ "from") ++
        [RTok.plain "l"]) = some (["x"], "l") := by
    simp [removeTailP, hS, List.findSome?_cons, textTok]
  have hsplit : splitsTextPlus (RTok.plain "x" ::
      (List.replicate (n + 1) (RTok.ext .from_ "from") ++
        [RTok.plain "l"])) =
      (["x"], List.replicate (n + 1) (RTok.ext .from_ "from") ++
          [RTok.plain "l"]) ::
        (splitsTextPlus (List.replicate (n + 1) (RTok.ext .from_ "from") ++
          [RTok.plain "l"])).map (fun p => ("x" :: p.1, p.2)) := by
    simp [splitsTextPlus, textTok]
  have hrm : removeP (RTok.ext .remove "remove" :: RTok.plain "x" ::
      (List.replicate (n + 1) (RTok.ext .from_ "from") ++
        [RTok.plain "l"])) = some (["x"], "l") := by
    simp [removeP, hkrm, List.findSome?_cons, hsplit, htl]
  simp [parseStatement, namedParse, namedAlternatives,
    assignP_none_of_is hisr, assignListP_none_of_is hisr, askP_none_of_is hisr,
    clearP_head_none (t := RTok.ext .remove "remove") (by decide),
    printP_head_none (t := RTok.ext .remove "remove") (by decide),
    playP_head_none (t := RTok.ext .remove "remove") (by decide),
    forwardP_head_none (t := RTok.ext .remove "remove") (by decide),
    turnP_head_none (t := RTok.ext .remove "remove") (by decide),
    colorP_head_none (t := RTok.ext .remove "remove") (by decide),
    sleepP_head_none (t := RTok.ext .remove "remove") (by decide),
    addP_head_none (t := RTok.ext .remove "remove") (by decide),
    hrm, List.findSome?_cons]

/-- Claim C9: every role-keyword position in every command shape accepts
a run of one or more consecutive tokens of that keyword (`keyword+`),
not exactly one: repeating `is`, `print`, `ask`, `at`, `random`, `clear`,
`sleep`, `play`, `forward`, `turn`, `color`, `add`, `to_list`, `remove`,
or `from` at its position still yields the same command tag. The run
length is `n + 1` for arbitrary `n`. -/
theorem C9_keyword_runs (n : Nat) :
    parseStatement (RTok.plain "a" ::
        (List.replicate (n + 1) (RTok.ext .is "is") ++ [RTok.plain "b"])) =
      some (.assign "a" (.texts ["b"])) ∧
    parseStatement
        (List.replicate (n + 1) (RTok.ext .print "print") ++
          [RTok.plain "x"]) = some (.print [.txt "x"]) ∧
    parseStatement (RTok.plain "a" :: RTok.ext .is "is" ::
        (List.replicate (n + 1) (RTok.spec .ask "ask") ++
          [RTok.str "\"q\""])) = some (.ask "a" [.str "\"q\""]) ∧
    parseStatement (RTok.plain "x" :: RTok.ext .is "is" ::
        RTok.plain "scores" ::
        (List.replicate (n + 1) (RTok.spec .at_ "at") ++ [RTok.plain "2"])) =
      some (.assign "x" (.la ⟨"scores", .idx "2"⟩)) ∧
    parseStatement (RTok.plain "x" :: RTok.ext .is "is" ::
        RTok.plain "scores" :: RTok.spec .at_ "at" ::
        List.replicate (n + 1) (RTok.spec .random "random")) =
      some (.assign "x" (.la ⟨"scores", .random⟩)) ∧
    parseStatement (List.replicate (n + 1) (RTok.ext .clear "clear")) =
      some .clear ∧
    parseStatement
        (List.replicate (n + 1) (RTok.ext .sleep "sleep") ++
          [RTok.plain "5"]) = some (.sleep (some (.txt "5"))) ∧
    parseStatement
        (List.replicate (n + 1) (RTok.ext .play "play") ++
          [RTok.plain "c4"]) = some (.play (.texts ["c4"])) ∧
    parseStatement
        (List.replicate (n + 1) (RTok.ext .forward "forward") ++
          [RTok.plain "10"]) = some (.forward (.txt "10")) ∧
    parseStatement
        (List.replicate (n + 1) (RTok.ext .turn "turn") ++
          [RTok.plain "90"]) = some (.turn (.txt "90")) ∧
    parseStatement
        (List.replicate (n + 1) (RTok.ext .color "color") ++
          [RTok.plain "red"]) = some (.color (.txt "red")) ∧
    parseStatement (List.replicate (n + 1) (RTok.ext .add "add") ++
        [RTok.plain "x", RTok.ext .to_list "to_list", RTok.plain "l"]) =
      some (.add ["x"] "l") ∧
    parseStatement (RTok.ext .add "add" :: RTok.plain "x" ::
        (List.replicate (n + 1) (RTok.ext .to_list "to_list") ++
          [RTok.plain "l"])) = some (.add ["x"] "l") ∧
    parseStatement (List.replicate (n + 1) (RTok.ext .remove "remove") ++
        [RTok.plain "x", RTok.ext .from_ "from", RTok.plain "l"]) =
      some (.remove ["x"] "l") ∧
    parseStatement (RTok.ext .remove "remove" :: RTok.plain "x" ::
        (List.replicate (n + 1) (RTok.ext .from_ "from") ++
          [RTok.plain "l"])) = some (.remove ["x"] "l") :=
  ⟨c9_is_run n, c9_print_run n, c9_ask_run n, c9_at_run n, c9_random_run n,
    c9_clear_run n, c9_sleep_run n, c9_play_run n, c9_forward_run n,
    c9_turn_run n, c9_color_run n, c9_add_run n, c9_to_list_run n,
    c9_remove_run n, c9_from_run n⟩

theorem C10_witness :
    (([⟨.text, ['a']⟩, ⟨.space, [' ']⟩, ⟨.text, ['b']⟩] : List Tok).Chain'
      noTextPair) ∧
    (∀ t ∈ ([⟨.text, ['a']⟩, ⟨.space, [' ']⟩, ⟨.text, ['b']⟩] : List Tok),
      ∀ c ∈ t.content, symbolChar c = true →
        t.kind = .text ∨ t.kind = .string ∨ t.kind = .comment) :=
  ⟨C10_symbols_absorbed.1 "a b".toList _ (by decide),
   C10_symbols_absorbed.2.1 "a b".toList _ (by decide)⟩

end HedyGrammar
